import Mathlib

/-!
# Verification of the terminal repository's virtual filesystem and shell core

This file gives a shallow embedding, in Lean 4, of the core of the
terminal-themed web application:

* the virtual filesystem utilities (`createFileSystem`, `getNodeAtPath`,
  `getParentPath`, `isValidPath`, `createFile`, `updateFile`, `getFileContent`
  from the final revision of `fileSystem.ts`),
* the command interpreter (`executeCommand` and its handlers `executeCd`,
  `executeLs`, `executeMkdir`, `executeComment`, `executeOpen`, `executeHelp`
  from the final revision of `commands.ts`),
* the shell-session state machine (`executeCommandLine` from the final
  revision of the `useTerminal` hook), and
* the chess-room move submission transaction (`submitMove` from the
  firestore room-sync module).

Modelling conventions:

* TypeScript objects become Lean structures / inductives; `undefined`-able
  fields become `Option`.
* In-place mutation becomes explicit state passing: a TS function that
  mutates the tree is embedded as a function that additionally returns the
  tree as it stands after the call.
* JavaScript `String.prototype.split` on a one-character separator is
  embedded as `splitChar`, a char-list splitter; `startsWith`/`includes`
  are embedded as prefix/infix tests on the underlying character lists.
* `localeCompare` is modelled as the code-point (lexicographic) comparison
  on strings; `Array.prototype.sort` (a stable sort) is modelled by a
  stable insertion sort with the source's comparator.
* The fire-and-forget network replication of `comment` (a `void`-discarded
  promise) has no effect on the shell state; a `Bool` stand-in for its
  outcome is threaded through `commentWithReplication` to state that the
  outcome is ignored.
* Firestore's per-room document store is modelled as `Option RoomDoc`
  (the document, or `none` when the room does not exist); a transaction
  becomes a pure function from the stored document to either an error or
  the updated document.  Server timestamps are not modelled.
-/

/-! ## String helpers (models of the JavaScript string primitives used) -/

/-- Model of JavaScript `s.split(sep)` for a one-character separator,
on character lists: splits at every occurrence of the separator, keeping
empty pieces. -/
def splitCharList (sep : Char) : List Char → List (List Char)
  | [] => [[]]
  | c :: cs =>
    if c = sep then [] :: splitCharList sep cs
    else
      match splitCharList sep cs with
      | [] => [[c]]
      | g :: gs => (c :: g) :: gs

/-- Model of JavaScript `s.split(sep)` for a one-character separator. -/
def splitChar (sep : Char) (s : String) : List String :=
  (splitCharList sep s.toList).map (fun l => String.mk l)

/-- Model of JavaScript `s.startsWith(p)`. -/
def strStartsWith (s p : String) : Bool :=
  p.toList.isPrefixOf s.toList

/-- Contiguous-sublist (infix) test on character lists. -/
def isInfixOfList (sub : List Char) : List Char → Bool
  | [] => sub.isEmpty
  | c :: cs => sub.isPrefixOf (c :: cs) || isInfixOfList sub cs

/-- Model of JavaScript `s.includes(sub)` (substring containment). -/
def strContains (s sub : String) : Bool :=
  isInfixOfList sub.toList s.toList

/-- Model of JavaScript `s.trim()`: drop whitespace from both ends. -/
def strTrim (s : String) : String :=
  String.mk
    (((s.toList.dropWhile Char.isWhitespace).reverse.dropWhile Char.isWhitespace).reverse)

/-! ## Data model (`types/terminal.ts`) -/

/-- The `type` tag of a filesystem node: `"file"` or `"directory"`. -/
inductive NodeType where
  | file
  | directory
deriving DecidableEq

/-- `FileSystemNode` from `types/terminal.ts`: a named node with a type tag,
an optional list of children (directories) and an optional content string
(files). -/
inductive FileSystemNode where
  | mk (name : String) (type : NodeType) (children : Option (List FileSystemNode))
      (content : Option String)

/-- The `name` field of a node. -/
def FileSystemNode.name : FileSystemNode → String
  | .mk n _ _ _ => n

/-- The `type` field of a node. -/
def FileSystemNode.type : FileSystemNode → NodeType
  | .mk _ t _ _ => t

/-- The optional `children` field of a node. -/
def FileSystemNode.children : FileSystemNode → Option (List FileSystemNode)
  | .mk _ _ cs _ => cs

/-- The optional `content` field of a node. -/
def FileSystemNode.content : FileSystemNode → Option String
  | .mk _ _ _ c => c

/-- Replace the `children` field of a node (used to embed in-place child
mutation). -/
def FileSystemNode.withChildren : FileSystemNode → Option (List FileSystemNode) → FileSystemNode
  | .mk n t _ c, cs => .mk n t cs c

/-- Replace the `content` field of a node (embeds `existingFile.content = content`). -/
def FileSystemNode.withContent : FileSystemNode → Option String → FileSystemNode
  | .mk n t cs _, c => .mk n t cs c

/-- `TerminalState` from `types/terminal.ts`. -/
structure TerminalState where
  currentDirectory : String
  fileSystem : FileSystemNode
  history : List String
  historyIndex : Int

/-- `CommandResult` from `types/terminal.ts`: output lines plus an optional
error message. -/
structure CommandResult where
  output : List String
  error : Option String
deriving DecidableEq

/-- The `type` tag of a displayed terminal line. -/
inductive LineType where
  | command
  | output
  | error
deriving DecidableEq

/-- `TerminalLine` from `types/terminal.ts`; the `timestamp` field (wall
clock) is not modelled. -/
structure TerminalLine where
  type : LineType
  content : String
  command : Option String
  directory : Option String
deriving DecidableEq

/-! ## `fileSystem.ts` (final revision, the one exporting file operations) -/

/-- `createFileSystem` from `fileSystem.ts`: the initial tree for a user. -/
def createFileSystem (nickname : String) : FileSystemNode :=
  .mk "/" .directory
    (some
      [ .mk "home" .directory
          (some
            [ .mk nickname .directory
                (some
                  [ .mk "active" .directory (some []) none,
                    .mk "Documents" .directory
                      (some [.mk "readme.txt" .file none (some "Welcome to the terminal!")])
                      none,
                    .mk "Downloads" .directory (some []) none,
                    .mk "Desktop" .directory (some []) none ])
                none ])
          none,
        .mk "bin" .directory (some []) none,
        .mk "etc" .directory (some []) none,
        .mk "tmp" .directory (some []) none ])
    none

/-- `path.split("/").filter(Boolean)`: the non-empty components of a path. -/
def pathParts (path : String) : List String :=
  (splitChar '/' path).filter (fun part => part ≠ "")

/-- `getParentPath` from `fileSystem.ts`. -/
def getParentPath (path : String) : String :=
  if path = "/" then "/"
  else
    let parts := pathParts path
    if parts.length = 0 then "/"
    else "/" ++ String.intercalate "/" (parts.dropLast)

/-- `isValidPath` from `fileSystem.ts`: must start with `/`, contain no `//`
or backslash, and no `.`/`..` components. -/
def isValidPath (path : String) : Bool :=
  if ¬ strStartsWith path "/" then false
  else if strContains path "//" || strContains path "\\" then false
  else
    (pathParts path).all fun part =>
      ¬ (part = ".") && ¬ (part = "..") && ¬ (part.length = 0)

/-- `currentNode.children?.find(node => node.name === part)`. -/
def findChild (node : FileSystemNode) (part : String) : Option FileSystemNode :=
  (node.children.getD []).find? (fun c => c.name = part)

/-- The component walk inside `getNodeAtPath`: repeatedly require a
directory and look the next component up among the children. -/
def walkParts : FileSystemNode → List String → Option FileSystemNode
  | node, [] => some node
  | node, part :: rest =>
    if node.type = .directory then
      match findChild node part with
      | none => none
      | some child => walkParts child rest
    else none

/-- `getNodeAtPath` from `fileSystem.ts`. -/
def getNodeAtPath (fileSystem : FileSystemNode) (path : String) : Option FileSystemNode :=
  if path = "/" then some fileSystem
  else walkParts fileSystem (pathParts path)

/-- Replace the first child named `nm` by its image under `f`, leaving the
rest of the list untouched (the write-back of a mutation performed on the
node returned by a `find`). -/
def replaceFirstNamed (nm : String) (f : FileSystemNode → FileSystemNode) :
    List FileSystemNode → List FileSystemNode
  | [] => []
  | c :: cs => if c.name = nm then f c :: cs else c :: replaceFirstNamed nm f cs

/-- Apply `f` in place to the node reached by `walkParts` along `parts`
(identity when the walk fails), rebuilding the tree along the way. -/
def modifyAtParts : FileSystemNode → List String → (FileSystemNode → FileSystemNode) → FileSystemNode
  | node, [], f => f node
  | node, part :: rest, f =>
    if node.type = .directory then
      node.withChildren
        (node.children.map (replaceFirstNamed part (fun c => modifyAtParts c rest f)))
    else node

/-- Apply `f` in place to the node reached by `getNodeAtPath path`. -/
def modifyAtPath (fileSystem : FileSystemNode) (path : String)
    (f : FileSystemNode → FileSystemNode) : FileSystemNode :=
  if path = "/" then f fileSystem
  else modifyAtParts fileSystem (pathParts path) f

/-- Append a child to a node's children, creating the array when absent
(`if (!parentNode.children) parentNode.children = []; children.push(x)`). -/
def pushChild (child : FileSystemNode) (node : FileSystemNode) : FileSystemNode :=
  node.withChildren (some (node.children.getD [] ++ [child]))

/-- `createFile` from `fileSystem.ts`.  Returns the success flag together
with the tree after the call (the TS function mutates the tree in place). -/
def createFile (fileSystem : FileSystemNode) (path : String) (fileName : String)
    (content : String) : Bool × FileSystemNode :=
  match getNodeAtPath fileSystem path with
  | none => (false, fileSystem)
  | some parentNode =>
    if parentNode.type ≠ .directory then (false, fileSystem)
    else
      match (parentNode.children.getD []).find? (fun c => c.name = fileName) with
      | some _ => (false, fileSystem)
      | none =>
        (true,
          modifyAtPath fileSystem path (pushChild (.mk fileName .file none (some content))))

/-- `updateFile` from `fileSystem.ts`.  Returns the success flag together
with the tree after the call. -/
def updateFile (fileSystem : FileSystemNode) (path : String) (fileName : String)
    (content : String) : Bool × FileSystemNode :=
  match getNodeAtPath fileSystem path with
  | none => (false, fileSystem)
  | some parentNode =>
    if parentNode.type ≠ .directory then (false, fileSystem)
    else
      match (parentNode.children.getD []).find? (fun c => c.name = fileName) with
      | none => (false, fileSystem)
      | some existingFile =>
        if existingFile.type ≠ .file then (false, fileSystem)
        else
          (true,
            modifyAtPath fileSystem path (fun node =>
              node.withChildren
                (node.children.map
                  (replaceFirstNamed fileName (fun c => c.withContent (some content))))))

/-- `getFileContent` from `fileSystem.ts`. -/
def getFileContent (fileSystem : FileSystemNode) (filePath : String) : Option String :=
  match getNodeAtPath fileSystem filePath with
  | none => none
  | some fileNode =>
    if fileNode.type ≠ .file then none
    else some (fileNode.content.getD "")

/-! ## `commands.ts` (final revision: cd, ls, mkdir, chess, comment, open,
clear, pwd, whoami, help) -/

/-- The comparator of `children.sort(...)` in `executeLs`, as a boolean
"a may come before b" relation: directories sort before files, ties are
broken alphabetically by name (`localeCompare` modelled as code-point
order). -/
def childLe (a b : FileSystemNode) : Bool :=
  if a.type ≠ b.type then a.type = .directory
  else a.name ≤ b.name

/-- Stable insertion of a node into a sorted list of children. -/
def insertChild (a : FileSystemNode) : List FileSystemNode → List FileSystemNode
  | [] => [a]
  | b :: bs => if childLe a b then a :: b :: bs else b :: insertChild a bs

/-- Model of `children.sort(comparator)`: a stable sort by `childLe`
(JavaScript's `Array.prototype.sort` is stable, so any stable sort with a
consistent comparator produces the same list). -/
def sortChildren : List FileSystemNode → List FileSystemNode
  | [] => []
  | a :: as => insertChild a (sortChildren as)

/-- The path computation shared by the `cd` handler and the hook's `cd`
commit branch: `..` resolves to the parent of the current directory, a
relative target is joined onto the current directory, an absolute target is
used verbatim. -/
def cdResolve (targetPath currentDirectory : String) : String :=
  if targetPath = ".." then getParentPath currentDirectory
  else if ¬ strStartsWith targetPath "/" then
    if currentDirectory = "/" then "/" ++ targetPath
    else currentDirectory ++ "/" ++ targetPath
  else targetPath

/-- The validation tail of `executeCd`: syntactic path check, then
existence-and-directory check. -/
def cdCheckPath (newPath targetPath : String) (state : TerminalState) : CommandResult :=
  if ¬ isValidPath newPath then
    { output := [], error := some ("cd: " ++ targetPath ++ ": No such file or directory") }
  else
    match getNodeAtPath state.fileSystem newPath with
    | none =>
      { output := [], error := some ("cd: " ++ targetPath ++ ": No such file or directory") }
    | some targetNode =>
      if targetNode.type ≠ .directory then
        { output := [],
          error := some ("cd: " ++ targetPath ++ ": No such file or directory") }
      else { output := [], error := none }

/-- `executeCd` from `commands.ts`: validates the target; the actual
directory change is performed by the caller. -/
def executeCd (args : List String) (state : TerminalState) : CommandResult :=
  match args.head? with
  | none => { output := [], error := none }
  | some targetPath =>
    if targetPath = "" ∨ targetPath = "~" then { output := [], error := none }
    else if targetPath = "-" then { output := [], error := none }
    else cdCheckPath (cdResolve targetPath state.currentDirectory) targetPath state

/-- The argument-parsing step of `executeLs`: the first argument is the
target path unless it is absent or looks like an option flag, in which case
the current directory is listed. -/
def lsTargetPath (args : List String) (state : TerminalState) : String :=
  match args with
  | [] => state.currentDirectory
  | a :: _ => if strStartsWith a "-" then state.currentDirectory else a

/-- The body of `executeLs` after argument parsing, acting on the resolved
target path.  Returns the result together with the filesystem after the
call: `children.sort` reorders the listed directory's child array in
place. -/
def executeLsAt (targetPath : String) (state : TerminalState) :
    CommandResult × FileSystemNode :=
  if ¬ isValidPath targetPath then
    ({ output := [], error := some ("ls: " ++ targetPath ++ ": No such file or directory") },
      state.fileSystem)
  else
    match getNodeAtPath state.fileSystem targetPath with
    | none =>
      ({ output := [], error := some ("ls: " ++ targetPath ++ ": No such file or directory") },
        state.fileSystem)
    | some targetNode =>
      if targetNode.type ≠ .directory then
        ({ output := [], error := some ("ls: " ++ targetPath ++ ": Not a directory") },
          state.fileSystem)
      else
        let children := targetNode.children.getD []
        if children.length = 0 then ({ output := [], error := none }, state.fileSystem)
        else
          let sortedChildren := sortChildren children
          ({ output := sortedChildren.map (fun child => child.name), error := none },
            modifyAtPath state.fileSystem targetPath
              (fun node => node.withChildren (some sortedChildren)))

/-- `executeLs` from `commands.ts`: parse the arguments, then list. -/
def executeLs (args : List String) (state : TerminalState) :
    CommandResult × FileSystemNode :=
  executeLsAt (lsTargetPath args state) state

/-- `executeMkdir` from `commands.ts`: validates the name and checks for a
sibling collision; the actual creation is performed by the caller. -/
def executeMkdir (args : List String) (state : TerminalState) : CommandResult :=
  match args.head? with
  | none => { output := [], error := some "mkdir: missing operand" }
  | some dirName =>
    if dirName = "" ∨ strContains dirName "/" then
      { output := [],
        error := some ("mkdir: cannot create directory '" ++ dirName ++ "': Invalid argument") }
    else
      match getNodeAtPath state.fileSystem state.currentDirectory with
      | none =>
        { output := [],
          error := some
            ("mkdir: cannot create directory '" ++ dirName ++ "': No such file or directory") }
      | some currentDir =>
        if currentDir.type ≠ .directory then
          { output := [],
            error := some
              ("mkdir: cannot create directory '" ++ dirName ++ "': No such file or directory") }
        else
          match (currentDir.children.getD []).find? (fun child => child.name = dirName) with
          | some _ =>
            { output := [],
              error := some ("mkdir: cannot create directory '" ++ dirName ++ "': File exists") }
          | none => { output := [], error := none }

/-- `executeComment` from `commands.ts`: creates `<nickname>.txt` in the
current directory with the joined arguments as content, falling back to an
in-place update when the file already exists.  The `void`-discarded network
replication has no effect on the shell state.  Returns the result together
with the filesystem after the call. -/
def executeComment (args : List String) (state : TerminalState) (nickname : String) :
    CommandResult × FileSystemNode :=
  if args.isEmpty then
    ({ output := [], error := some "comment: missing content" }, state.fileSystem)
  else
    let content := String.intercalate " " args
    let fileName := nickname ++ ".txt"
    let created := createFile state.fileSystem state.currentDirectory fileName content
    if created.1 then ({ output := ["file created (shared)"], error := none }, created.2)
    else
      let updated := updateFile created.2 state.currentDirectory fileName content
      if updated.1 then ({ output := ["file updated (shared)"], error := none }, updated.2)
      else
        ({ output := [],
            error := some ("comment: cannot update file '" ++ fileName ++ "': File not found") },
          updated.2)

/-- `executeOpen` from `commands.ts`: resolves the filename against the
current directory unless absolute and prints the file content. -/
def executeOpen (args : List String) (state : TerminalState) : CommandResult :=
  match args.head? with
  | none => { output := [], error := some "open: missing filename" }
  | some fileName =>
    let filePath :=
      if ¬ strStartsWith fileName "/" then
        if state.currentDirectory = "/" then "/" ++ fileName
        else state.currentDirectory ++ "/" ++ fileName
      else fileName
    match getFileContent state.fileSystem filePath with
    | none => { output := [], error := some ("open: " ++ fileName ++ ": No such file") }
    | some content => { output := [content], error := none }

/-- `executeHelp` from `commands.ts`: the static usage listing. -/
def executeHelp : CommandResult :=
  { output :=
      [ "Available commands:",
        "",
        "  cd [directory]     Change directory",
        "  cd ..              Go to parent directory",
        "  ls                 List directory contents",
        "  mkdir [directory]  Create a new directory",
        "  chess              Launch chess window",
        "  comment [text]     Create a text file with content",
        "  open [filename]    Read and display file contents",
        "  pwd                Print working directory",
        "  whoami             Show current user",
        "  clear              Clear terminal screen",
        "  help               Show this help message" ],
    error := none }

/-- `command.trim().split(" ")`: the token list of a raw input line. -/
def commandTokens (command : String) : List String :=
  splitChar ' ' (strTrim command)

/-- `executeCommand` from `commands.ts`: parse the raw line and dispatch.
Returns the result together with the filesystem tree after the call (the
tree is the only session data a handler writes: the `comment` and `ls`
handlers mutate it in place, every other handler leaves it untouched). -/
def executeCommand (command : String) (state : TerminalState) (nickname : String) :
    CommandResult × FileSystemNode :=
  let tokens := commandTokens command
  let cmd := tokens.headD ""
  let args := tokens.tail
  if cmd = "cd" then (executeCd args state, state.fileSystem)
  else if cmd = "ls" then executeLs args state
  else if cmd = "mkdir" then (executeMkdir args state, state.fileSystem)
  else if cmd = "chess" then
    ({ output := ["chess.exe running"], error := none }, state.fileSystem)
  else if cmd = "comment" then executeComment args state nickname
  else if cmd = "open" then (executeOpen args state, state.fileSystem)
  else if cmd = "clear" then ({ output := [], error := none }, state.fileSystem)
  else if cmd = "pwd" then
    ({ output := [state.currentDirectory], error := none }, state.fileSystem)
  else if cmd = "whoami" then ({ output := [nickname], error := none }, state.fileSystem)
  else if cmd = "help" then (executeHelp, state.fileSystem)
  else if cmd ≠ "" then
    ({ output := [],
        error := some ("command not found: " ++ cmd ++ "\ntype \"help\" for a list of commands") },
      state.fileSystem)
  else ({ output := [], error := none }, state.fileSystem)

/-- The session state as it stands after an `executeCommand` call: only the
filesystem field can have changed. -/
def executeCommandState (command : String) (state : TerminalState) (nickname : String) :
    CommandResult × TerminalState :=
  ((executeCommand command state nickname).1,
    { state with fileSystem := (executeCommand command state nickname).2 })

/-! ## `useTerminal` (final revision): the shell session state machine -/

/-- A shell session: the terminal state plus the displayed line log. -/
structure Session where
  state : TerminalState
  lines : List TerminalLine

/-- The initial session for a nickname: current directory `/home/<nickname>`,
a fresh filesystem, empty history and an empty display log. -/
def initialSession (nickname : String) : Session :=
  { state :=
      { currentDirectory := "/home/" ++ nickname,
        fileSystem := createFileSystem nickname,
        history := [],
        historyIndex := -1 },
    lines := [] }

/-- The new current directory committed by the hook's `cd` branch. -/
def cdNewPath (nickname : String) (currentDirectory : String)
    (targetPath? : Option String) : String :=
  match targetPath? with
  | none => "/home/" ++ nickname
  | some targetPath =>
    if targetPath = "" ∨ targetPath = "~" then "/home/" ++ nickname
    else if targetPath = ".." then getParentPath currentDirectory
    else if targetPath = "-" then "/home/" ++ nickname
    else cdResolve targetPath currentDirectory

/-- The filesystem mutation committed by the hook's `mkdir` branch: append a
fresh directory to the current directory's children unless a directory of
that name already exists there. -/
def mkdirCommit (fileSystem : FileSystemNode) (currentDirectory : String)
    (dirName : String) : FileSystemNode :=
  match getNodeAtPath fileSystem currentDirectory with
  | none => fileSystem
  | some currentDir =>
    if currentDir.type ≠ .directory then fileSystem
    else
      match (currentDir.children.getD []).find?
          (fun child => child.name = dirName && child.type = .directory) with
      | some _ => fileSystem
      | none =>
        modifyAtPath fileSystem currentDirectory
          (pushChild (.mk dirName .directory (some []) none))

/-- Append the result's lines to the display log: the error line when the
result has an error, otherwise one output line per output string. -/
def appendResult (lines : List TerminalLine) (result : CommandResult) : List TerminalLine :=
  match result.error with
  | some e => lines ++ [{ type := .error, content := e, command := none, directory := none }]
  | none =>
    lines ++ result.output.map
      (fun o => { type := .output, content := o, command := none, directory := none })

/-- `executeCommandLine` from the `useTerminal` hook: record history, echo
the command, run the interpreter, commit the `cd`/`mkdir` state transitions
(or wipe the log for `clear`), then append the result lines. -/
def executeCommandLine (nickname : String) (sess : Session) (command : String) : Session :=
  if strTrim command = "" then sess
  else
    let s0 := sess.state
    let echoed := sess.lines ++
      [{ type := .command, content := command, command := some command,
          directory := some s0.currentDirectory }]
    let run := executeCommand command s0 nickname
    let result := run.1
    let s1 : TerminalState :=
      { currentDirectory := s0.currentDirectory, fileSystem := run.2,
        history := s0.history ++ [command], historyIndex := -1 }
    let tokens := commandTokens command
    let cmd := tokens.headD ""
    let args := tokens.tail
    if cmd = "cd" then
      if result.error = none then
        { state := { s1 with currentDirectory := cdNewPath nickname s0.currentDirectory args.head? },
          lines := appendResult echoed result }
      else { state := s1, lines := appendResult echoed result }
    else if cmd = "mkdir" then
      if result.error = none then
        match args.head? with
        | some dirName =>
          if dirName ≠ "" then
            { state :=
                { s1 with fileSystem := mkdirCommit s1.fileSystem s1.currentDirectory dirName },
              lines := appendResult echoed result }
          else { state := s1, lines := appendResult echoed result }
        | none => { state := s1, lines := appendResult echoed result }
      else { state := s1, lines := appendResult echoed result }
    else if cmd = "clear" then { state := s1, lines := [] }
    else { state := s1, lines := appendResult echoed result }

/-- Run a list of command lines in order from a session. -/
def runCommands (nickname : String) (sess : Session) (commands : List String) : Session :=
  commands.foldl (executeCommandLine nickname) sess

/-! ## Chess room synchronization (`submitMove` transaction) -/

/-- The side to move. -/
inductive Turn where
  | w
  | b
deriving DecidableEq

/-- A chess move reference `{ from, to, promotion? }` (`from`/`to` are
square names; the field names are suffixed since `from` is reserved). -/
structure Move where
  fromSq : String
  toSq : String
  promotion : Option String
deriving DecidableEq

/-- The room document stored per room code (server timestamps omitted). -/
structure RoomDoc where
  fen : String
  turn : Turn
  playersWhite : Option String
  playersBlack : Option String
  host : String
  status : String
  lastMove : Option Move
  version : Nat
deriving DecidableEq

/-- `submitMove`: the optimistic-concurrency transaction.  The store for a
room is `some doc` (the room document) or `none` (no such room); the
transaction fails when the room is missing or its stored version differs
from the caller's `expectVersion`, and otherwise replaces `fen`, `turn` and
`lastMove` and increments `version` by one. -/
def submitMove (store : Option RoomDoc) (move : Move) (expectVersion : Nat)
    (nextFen : String) (nextTurn : Turn) : Except String RoomDoc :=
  match store with
  | none => .error "Room not found"
  | some data =>
    if data.version ≠ expectVersion then .error "Stale state"
    else
      .ok { data with
        fen := nextFen, turn := nextTurn, lastMove := some move,
        version := data.version + 1 }

/-- The stored document after a `submitMove` call: replaced on success,
untouched when the transaction throws. -/
def submitMoveStore (store : Option RoomDoc) (move : Move) (expectVersion : Nat)
    (nextFen : String) (nextTurn : Turn) : Option RoomDoc :=
  match submitMove store move expectVersion nextFen nextTurn with
  | .ok doc => some doc
  | .error _ => store

/-! ## Basic lemmas about nodes and child lists -/

@[simp] theorem FileSystemNode.name_mk (n : String) (t : NodeType)
    (cs : Option (List FileSystemNode)) (c : Option String) :
    (FileSystemNode.mk n t cs c).name = n := rfl

@[simp] theorem FileSystemNode.type_mk (n : String) (t : NodeType)
    (cs : Option (List FileSystemNode)) (c : Option String) :
    (FileSystemNode.mk n t cs c).type = t := rfl

@[simp] theorem FileSystemNode.children_mk (n : String) (t : NodeType)
    (cs : Option (List FileSystemNode)) (c : Option String) :
    (FileSystemNode.mk n t cs c).children = cs := rfl

@[simp] theorem FileSystemNode.content_mk (n : String) (t : NodeType)
    (cs : Option (List FileSystemNode)) (c : Option String) :
    (FileSystemNode.mk n t cs c).content = c := rfl

@[simp] theorem FileSystemNode.withChildren_mk (n : String) (t : NodeType)
    (cs cs' : Option (List FileSystemNode)) (c : Option String) :
    (FileSystemNode.mk n t cs c).withChildren cs' = .mk n t cs' c := rfl

@[simp] theorem FileSystemNode.withContent_mk (n : String) (t : NodeType)
    (cs : Option (List FileSystemNode)) (c c' : Option String) :
    (FileSystemNode.mk n t cs c).withContent c' = .mk n t cs c' := rfl

@[simp] theorem FileSystemNode.name_withChildren (node : FileSystemNode)
    (cs : Option (List FileSystemNode)) : (node.withChildren cs).name = node.name := by
  cases node; rfl

@[simp] theorem FileSystemNode.type_withChildren (node : FileSystemNode)
    (cs : Option (List FileSystemNode)) : (node.withChildren cs).type = node.type := by
  cases node; rfl

@[simp] theorem FileSystemNode.children_withChildren (node : FileSystemNode)
    (cs : Option (List FileSystemNode)) : (node.withChildren cs).children = cs := by
  cases node; rfl

@[simp] theorem FileSystemNode.name_withContent (node : FileSystemNode)
    (c : Option String) : (node.withContent c).name = node.name := by
  cases node; rfl

@[simp] theorem FileSystemNode.type_withContent (node : FileSystemNode)
    (c : Option String) : (node.withContent c).type = node.type := by
  cases node; rfl

@[simp] theorem FileSystemNode.children_withContent (node : FileSystemNode)
    (c : Option String) : (node.withContent c).children = node.children := by
  cases node; rfl

theorem FileSystemNode.eta (node : FileSystemNode) :
    FileSystemNode.mk node.name node.type node.children node.content = node := by
  cases node; rfl


/-- Unfolding a name search at a matching head. -/
theorem find?_name_cons_pos {nm : String} {d : FileSystemNode} (cs : List FileSystemNode)
    (hd : d.name = nm) : (d :: cs).find? (fun c => c.name = nm) = some d :=
  List.find?_cons_of_pos _ (by simp [hd])

/-- Unfolding a name search at a non-matching head. -/
theorem find?_name_cons_neg {nm : String} {d : FileSystemNode} (cs : List FileSystemNode)
    (hd : ¬ d.name = nm) :
    (d :: cs).find? (fun c => c.name = nm) = cs.find? (fun c => c.name = nm) :=
  List.find?_cons_of_neg _ (by simp [hd])

/-- `replaceFirstNamed` is the identity when no child has the name. -/
theorem replaceFirstNamed_of_find?_none {nm : String} {g : FileSystemNode → FileSystemNode}
    {cs : List FileSystemNode} (h : cs.find? (fun c => c.name = nm) = none) :
    replaceFirstNamed nm g cs = cs := by
  induction cs with
  | nil => rfl
  | cons c cs ih =>
    by_cases hc : c.name = nm
    · rw [find?_name_cons_pos cs hc] at h
      exact absurd h (by simp)
    · rw [find?_name_cons_neg cs hc] at h
      simp [replaceFirstNamed, hc, ih h]

/-- Replacing the found child with itself is the identity. -/
theorem replaceFirstNamed_of_fix {nm : String} {g : FileSystemNode → FileSystemNode}
    {cs : List FileSystemNode} {c : FileSystemNode}
    (h : cs.find? (fun c => c.name = nm) = some c) (hfix : g c = c) :
    replaceFirstNamed nm g cs = cs := by
  induction cs with
  | nil => simp at h
  | cons d cs ih =>
    by_cases hd : d.name = nm
    · rw [find?_name_cons_pos cs hd] at h
      injection h with h
      subst h
      simp [replaceFirstNamed, hd, hfix]
    · rw [find?_name_cons_neg cs hd] at h
      simp [replaceFirstNamed, hd, ih h]

/-- Finding the replaced name after `replaceFirstNamed` yields the image of
the originally found child, provided `g` preserves names. -/
theorem find?_replaceFirstNamed_self {nm : String} {g : FileSystemNode → FileSystemNode}
    (hg : ∀ x, (g x).name = x.name) {cs : List FileSystemNode} {c : FileSystemNode}
    (h : cs.find? (fun c => c.name = nm) = some c) :
    (replaceFirstNamed nm g cs).find? (fun c => c.name = nm) = some (g c) := by
  induction cs with
  | nil => simp at h
  | cons d cs ih =>
    by_cases hd : d.name = nm
    · rw [find?_name_cons_pos cs hd] at h
      injection h with h
      subst h
      simp only [replaceFirstNamed, hd, if_pos]
      exact find?_name_cons_pos _ (by rw [hg, hd])
    · rw [find?_name_cons_neg cs hd] at h
      simp only [replaceFirstNamed, hd, ite_false, if_neg, not_false_iff]
      rw [find?_name_cons_neg _ hd]
      exact ih h

/-- Finding any other name is unaffected by `replaceFirstNamed`, provided
`g` preserves names. -/
theorem find?_replaceFirstNamed_ne {nm a : String} (hne : a ≠ nm)
    {g : FileSystemNode → FileSystemNode} (hg : ∀ x, (g x).name = x.name)
    (cs : List FileSystemNode) :
    (replaceFirstNamed nm g cs).find? (fun c => c.name = a) =
      cs.find? (fun c => c.name = a) := by
  induction cs with
  | nil => rfl
  | cons d cs ih =>
    by_cases hd : d.name = nm
    · have hda : ¬ d.name = a := by rw [hd]; exact fun h => hne h.symm
      have hga : ¬ (g d).name = a := by rw [hg d, hd]; exact fun h => hne h.symm
      simp only [replaceFirstNamed, hd, if_pos]
      rw [find?_name_cons_neg _ hga, find?_name_cons_neg _ hda]
    · simp only [replaceFirstNamed, hd, ite_false, if_neg, not_false_iff]
      by_cases hda : d.name = a
      · rw [find?_name_cons_pos _ hda, find?_name_cons_pos _ hda]
      · rw [find?_name_cons_neg _ hda, find?_name_cons_neg _ hda, ih]

/-- `replaceFirstNamed` leaves the list of names unchanged, provided `g`
preserves names. -/
theorem map_name_replaceFirstNamed {nm : String} {g : FileSystemNode → FileSystemNode}
    (hg : ∀ x, (g x).name = x.name) (cs : List FileSystemNode) :
    (replaceFirstNamed nm g cs).map FileSystemNode.name = cs.map FileSystemNode.name := by
  induction cs with
  | nil => rfl
  | cons d cs ih =>
    by_cases hd : d.name = nm
    · simp [replaceFirstNamed, hd, hg]
    · simp [replaceFirstNamed, hd, ih]

/-- A successful `find?` in the left part survives appending. -/
theorem find?_append_some {p : FileSystemNode → Bool} {l₁ : List FileSystemNode}
    {c : FileSystemNode} (h : l₁.find? p = some c) (l₂ : List FileSystemNode) :
    (l₁ ++ l₂).find? p = some c := by
  induction l₁ with
  | nil => simp at h
  | cons d l₁ ih =>
    by_cases hd : p d
    · rw [List.find?_cons_of_pos _ hd] at h
      simpa [List.find?_cons_of_pos _ hd] using h
    · rw [List.find?_cons_of_neg _ (by simpa using hd)] at h
      rw [List.cons_append, List.find?_cons_of_neg _ (by simpa using hd)]
      exact ih h

/-- A failed `find?` in the left part defers to the right part. -/
theorem find?_append_none {p : FileSystemNode → Bool} {l₁ : List FileSystemNode}
    (h : l₁.find? p = none) (l₂ : List FileSystemNode) :
    (l₁ ++ l₂).find? p = l₂.find? p := by
  induction l₁ with
  | nil => simp
  | cons d l₁ ih =>
    by_cases hd : p d
    · rw [List.find?_cons_of_pos _ hd] at h
      exact absurd h (by simp)
    · rw [List.find?_cons_of_neg _ (by simpa using hd)] at h
      rw [List.cons_append, List.find?_cons_of_neg _ (by simpa using hd)]
      exact ih h

/-! ## Deep name-uniqueness of a tree -/

mutual

/-- Every `children` list in the tree has pairwise-distinct names (the
sibling-uniqueness invariant of the spec's data model). -/
def uniqDeep : FileSystemNode → Bool
  | .mk _ _ none _ => true
  | .mk _ _ (some cs) _ => decide (cs.map FileSystemNode.name).Nodup && uniqList cs

/-- `uniqDeep` on every member of a list. -/
def uniqList : List FileSystemNode → Bool
  | [] => true
  | c :: cs => uniqDeep c && uniqList cs

end

theorem uniqList_mem {cs : List FileSystemNode} {c : FileSystemNode}
    (hu : uniqList cs = true) (hmem : c ∈ cs) : uniqDeep c = true := by
  induction cs with
  | nil => simp at hmem
  | cons d cs ih =>
    rw [uniqList, Bool.and_eq_true] at hu
    rcases List.mem_cons.mp hmem with h | h
    · exact h ▸ hu.1
    · exact ih hu.2 h

theorem uniqDeep_children {node : FileSystemNode} (hu : uniqDeep node = true) :
    (((node.children.getD []).map FileSystemNode.name).Nodup ∧
      uniqList (node.children.getD []) = true) := by
  cases node with
  | mk n t cs c =>
    cases cs with
    | none => simp [uniqList]
    | some cs =>
      rw [uniqDeep, Bool.and_eq_true, decide_eq_true_eq] at hu
      simpa using hu

theorem uniqDeep_mk_some {n : String} {t : NodeType} {cs : List FileSystemNode}
    {c : Option String} (hnd : (cs.map FileSystemNode.name).Nodup)
    (hl : uniqList cs = true) :
    uniqDeep (FileSystemNode.mk n t (some cs) c) = true := by
  rw [uniqDeep, Bool.and_eq_true, decide_eq_true_eq]
  exact ⟨hnd, hl⟩

theorem uniqList_replaceFirstNamed {nm : String} {g : FileSystemNode → FileSystemNode}
    {cs : List FileSystemNode} (hl : uniqList cs = true)
    (hg : ∀ c, cs.find? (fun c => c.name = nm) = some c → uniqDeep (g c) = true) :
    uniqList (replaceFirstNamed nm g cs) = true := by
  induction cs with
  | nil => rfl
  | cons d cs ih =>
    rw [uniqList, Bool.and_eq_true] at hl
    by_cases hd : d.name = nm
    · have hgd : uniqDeep (g d) = true := hg d (find?_name_cons_pos cs hd)
      simp [replaceFirstNamed, hd, uniqList, hgd, hl.2]
    · have hg' : ∀ c, cs.find? (fun c => c.name = nm) = some c → uniqDeep (g c) = true := by
        intro c hc
        exact hg c (by rw [find?_name_cons_neg cs hd]; exact hc)
      simp [replaceFirstNamed, hd, uniqList, hl.1, ih hl.2 hg']

/-! ## Structural similarity: the relation preserved by every in-place
mutation the shell performs (same name and type, and every child that could
be found by name before can still be found, with similar result) -/

/-- `Sim n n'` says the mutation taking `n` to `n'` preserved the node's
name and type and the outcome (up to `Sim`) of every by-name child lookup
that succeeded on `n`. -/
inductive Sim : FileSystemNode → FileSystemNode → Prop where
  | mk {n n' : FileSystemNode}
      (hname : n'.name = n.name)
      (htype : n'.type = n.type)
      (hsome : ∀ a, (findChild n a).isSome → (findChild n' a).isSome)
      (hsim : ∀ a d d', findChild n a = some d → findChild n' a = some d' → Sim d d') :
      Sim n n'

theorem Sim.name_eq {n n' : FileSystemNode} (h : Sim n n') : n'.name = n.name := by
  cases h with | mk hname _ _ _ => exact hname

theorem Sim.type_eq {n n' : FileSystemNode} (h : Sim n n') : n'.type = n.type := by
  cases h with | mk _ htype _ _ => exact htype

theorem sizeOf_findChild {node : FileSystemNode} {a : String} {d : FileSystemNode}
    (h : findChild node a = some d) : sizeOf d < sizeOf node := by
  have hmem : d ∈ node.children.getD [] := List.mem_of_find?_eq_some h
  cases node with
  | mk n t cs c =>
    cases cs with
    | none => simp at hmem
    | some cs =>
      have h1 : sizeOf d < sizeOf cs := List.sizeOf_lt_of_mem (by simpa using hmem)
      simp only [FileSystemNode.mk.sizeOf_spec, Option.some.sizeOf_spec]
      omega

theorem sim_refl_aux : ∀ (k : Nat) (n : FileSystemNode), sizeOf n ≤ k → Sim n n := by
  intro k
  induction k with
  | zero =>
    intro n h
    exfalso
    cases n with
    | mk nm t cs c => simp [FileSystemNode.mk.sizeOf_spec] at h
  | succ k ih =>
    intro n h
    refine Sim.mk rfl rfl (fun a ha => ha) ?_
    intro a d d' hd hd'
    rw [hd] at hd'
    injection hd' with hdd
    subst hdd
    exact ih d (by have := sizeOf_findChild hd; omega)

/-- `Sim` is reflexive. -/
theorem sim_refl (n : FileSystemNode) : Sim n n := sim_refl_aux (sizeOf n) n le_rfl

/-- The walk transfers along `Sim`, preserving success and relating the
reached nodes. -/
theorem walk_sim : ∀ (parts : List String) {n n' : FileSystemNode}, Sim n n' →
    ∀ {d : FileSystemNode}, walkParts n parts = some d →
    ∃ d', walkParts n' parts = some d' ∧ Sim d d' := by
  intro parts
  induction parts with
  | nil =>
    intro n n' hsim d hd
    rw [walkParts] at hd
    injection hd with hd
    subst hd
    exact ⟨n', rfl, hsim⟩
  | cons part rest ih =>
    intro n n' hsim d hd
    rw [walkParts] at hd
    split at hd
    case isTrue hdir =>
      cases hfc : findChild n part with
      | none => rw [hfc] at hd; simp at hd
      | some child =>
        rw [hfc] at hd
        have hsome : (findChild n' part).isSome := by
          cases hsim with
          | mk _ _ hsome _ => exact hsome part (by rw [hfc]; rfl)
        cases hfc' : findChild n' part with
        | none => rw [hfc'] at hsome; simp at hsome
        | some child' =>
          have hcc : Sim child child' := by
            cases hsim with
            | mk _ _ _ hsim' => exact hsim' part child child' hfc hfc'
          obtain ⟨d', hd', hsim_d⟩ := ih hcc hd
          refine ⟨d', ?_, hsim_d⟩
          rw [walkParts, if_pos (by rw [hsim.type_eq]; exact hdir), hfc']
          exact hd'
    case isFalse hdir => simp at hd

@[simp] theorem findChild_mk_some (n : String) (t : NodeType) (cs : List FileSystemNode)
    (c : Option String) (a : String) :
    findChild (FileSystemNode.mk n t (some cs) c) a = cs.find? (fun x => x.name = a) := rfl

@[simp] theorem findChild_mk_none (n : String) (t : NodeType) (c : Option String) (a : String) :
    findChild (FileSystemNode.mk n t none c) a = none := rfl

@[simp] theorem getNodeAtPath_root (fs : FileSystemNode) :
    getNodeAtPath fs "/" = some fs := by
  simp [getNodeAtPath]

/-- `modifyAtParts` preserves the node's name when `f` does. -/
theorem modifyAtParts_name {f : FileSystemNode → FileSystemNode}
    (hf : ∀ x, (f x).name = x.name) :
    ∀ (parts : List String) (node : FileSystemNode),
      (modifyAtParts node parts f).name = node.name := by
  intro parts
  induction parts with
  | nil => intro node; exact hf node
  | cons part rest _ =>
    intro node
    rw [modifyAtParts]
    split
    · simp
    · rfl

/-- The walk along `Sim`-preserving in-place modification: `modifyAtParts`
produces a tree `Sim`-related to the original, provided `f` preserves names
and relates the reached node to its image. -/
theorem sim_modifyAtParts {f : FileSystemNode → FileSystemNode}
    (hfname : ∀ x, (f x).name = x.name) :
    ∀ (parts : List String) (node : FileSystemNode),
      (∀ m, walkParts node parts = some m → Sim m (f m)) →
      Sim node (modifyAtParts node parts f) := by
  intro parts
  induction parts with
  | nil =>
    intro node hf
    exact hf node rfl
  | cons part rest ih =>
    intro node hf
    rw [modifyAtParts]
    by_cases hdir : node.type = .directory
    · rw [if_pos hdir]
      cases node with
      | mk n t cs c =>
        simp only [FileSystemNode.type_mk] at hdir
        subst hdir
        cases cs with
        | none =>
          simp only [FileSystemNode.children_mk, Option.map_none', FileSystemNode.withChildren_mk]
          exact sim_refl _
        | some cs =>
          simp only [FileSystemNode.children_mk, Option.map_some', FileSystemNode.withChildren_mk]
          cases hfc : cs.find? (fun x => x.name = part) with
          | none =>
            rw [replaceFirstNamed_of_find?_none hfc]
            exact sim_refl _
          | some c0 =>
            have hgname : ∀ x, (modifyAtParts x rest f).name = x.name := fun x =>
              modifyAtParts_name hfname rest x
            have hsimc : Sim c0 (modifyAtParts c0 rest f) := by
              apply ih
              intro m hm
              apply hf
              rw [walkParts, if_pos (by simp)]
              rw [findChild_mk_some, hfc]
              exact hm
            refine Sim.mk (by simp) (by simp) ?_ ?_
            · intro a ha
              rw [findChild_mk_some] at ha ⊢
              by_cases hap : a = part
              · subst hap
                rw [find?_replaceFirstNamed_self hgname hfc]
                rfl
              · rw [find?_replaceFirstNamed_ne hap hgname]
                exact ha
            · intro a d d' hd hd'
              rw [findChild_mk_some] at hd hd'
              by_cases hap : a = part
              · subst hap
                rw [hfc] at hd
                injection hd with hd
                rw [find?_replaceFirstNamed_self hgname hfc] at hd'
                injection hd' with hd'
                rw [← hd, ← hd']
                exact hsimc
              · rw [find?_replaceFirstNamed_ne hap hgname] at hd'
                rw [hd] at hd'
                injection hd' with hd'
                rw [← hd']
                exact sim_refl d
    · rw [if_neg hdir]
      exact sim_refl node

/-- `modifyAtParts` preserves deep name-uniqueness, provided `f` preserves
names and `f`'s image of the reached node is deep-unique. -/
theorem uniq_modifyAtParts {f : FileSystemNode → FileSystemNode}
    (hfname : ∀ x, (f x).name = x.name) :
    ∀ (parts : List String) (node : FileSystemNode),
      uniqDeep node = true →
      (∀ m, walkParts node parts = some m → uniqDeep (f m) = true) →
      uniqDeep (modifyAtParts node parts f) = true := by
  intro parts
  induction parts with
  | nil =>
    intro node hu hf
    exact hf node rfl
  | cons part rest ih =>
    intro node hu hf
    rw [modifyAtParts]
    by_cases hdir : node.type = .directory
    · rw [if_pos hdir]
      cases node with
      | mk n t cs c =>
        simp only [FileSystemNode.type_mk] at hdir
        subst hdir
        cases cs with
        | none => simpa using hu
        | some cs =>
          simp only [FileSystemNode.children_mk, Option.map_some', FileSystemNode.withChildren_mk]
          have hgname : ∀ x, (modifyAtParts x rest f).name = x.name := fun x =>
            modifyAtParts_name hfname rest x
          have hcs := uniqDeep_children hu
          simp only [FileSystemNode.children_mk, Option.getD_some] at hcs
          apply uniqDeep_mk_some
          · rw [map_name_replaceFirstNamed hgname]
            exact hcs.1
          · apply uniqList_replaceFirstNamed hcs.2
            intro c0 hc0
            apply ih c0 (uniqList_mem hcs.2 (List.mem_of_find?_eq_some hc0))
            intro m hm
            apply hf
            rw [walkParts, if_pos (by simp)]
            rw [findChild_mk_some, hc0]
            exact hm
    · rw [if_neg hdir]
      exact hu

/-- After modifying in place at `parts`, the walk along the same `parts`
reaches the image of the original node, provided `f` preserves names. -/
theorem walk_modifyAtParts_self {f : FileSystemNode → FileSystemNode}
    (hfname : ∀ x, (f x).name = x.name) :
    ∀ (parts : List String) (node m : FileSystemNode),
      walkParts node parts = some m →
      walkParts (modifyAtParts node parts f) parts = some (f m) := by
  intro parts
  induction parts with
  | nil =>
    intro node m hm
    rw [walkParts] at hm
    injection hm with hm
    subst hm
    rfl
  | cons part rest ih =>
    intro node m hm
    rw [walkParts] at hm
    split at hm
    case isTrue hdir =>
      cases node with
      | mk n t cs c =>
        simp only [FileSystemNode.type_mk] at hdir
        subst hdir
        cases cs with
        | none => simp at hm
        | some cs =>
          rw [findChild_mk_some] at hm
          cases hfc : cs.find? (fun x => x.name = part) with
          | none => rw [hfc] at hm; simp at hm
          | some c0 =>
            rw [hfc] at hm
            have hgname : ∀ x, (modifyAtParts x rest f).name = x.name := fun x =>
              modifyAtParts_name hfname rest x
            rw [modifyAtParts, if_pos (by simp)]
            simp only [FileSystemNode.children_mk, Option.map_some',
              FileSystemNode.withChildren_mk]
            rw [walkParts, if_pos (by simp)]
            rw [findChild_mk_some, find?_replaceFirstNamed_self hgname hfc]
            exact ih c0 m hm
    case isFalse => simp at hm

/-- The walk preserves deep uniqueness. -/
theorem walk_uniq : ∀ (parts : List String) {node m : FileSystemNode},
    uniqDeep node = true → walkParts node parts = some m → uniqDeep m = true := by
  intro parts
  induction parts with
  | nil =>
    intro node m hu hm
    rw [walkParts] at hm
    injection hm with hm
    subst hm
    exact hu
  | cons part rest ih =>
    intro node m hu hm
    rw [walkParts] at hm
    split at hm
    case isTrue =>
      cases hfc : findChild node part with
      | none => rw [hfc] at hm; simp at hm
      | some child =>
        rw [hfc] at hm
        have hchild : uniqDeep child = true :=
          uniqList_mem (uniqDeep_children hu).2 (List.mem_of_find?_eq_some hfc)
        exact ih hchild hm
    case isFalse => simp at hm

/-- Path-level version of `sim_modifyAtParts`. -/
theorem sim_modifyAtPath {f : FileSystemNode → FileSystemNode}
    (hfname : ∀ x, (f x).name = x.name) (fs : FileSystemNode) (path : String)
    (hf : ∀ m, getNodeAtPath fs path = some m → Sim m (f m)) :
    Sim fs (modifyAtPath fs path f) := by
  rw [modifyAtPath]
  by_cases hroot : path = "/"
  · rw [if_pos hroot]
    exact hf fs (by rw [hroot]; simp)
  · rw [if_neg hroot]
    apply sim_modifyAtParts hfname
    intro m hm
    apply hf
    rw [getNodeAtPath, if_neg hroot]
    exact hm

/-- Path-level version of `uniq_modifyAtParts`. -/
theorem uniq_modifyAtPath {f : FileSystemNode → FileSystemNode}
    (hfname : ∀ x, (f x).name = x.name) (fs : FileSystemNode) (path : String)
    (hu : uniqDeep fs = true)
    (hf : ∀ m, getNodeAtPath fs path = some m → uniqDeep (f m) = true) :
    uniqDeep (modifyAtPath fs path f) = true := by
  rw [modifyAtPath]
  by_cases hroot : path = "/"
  · rw [if_pos hroot]
    exact hf fs (by rw [hroot]; simp)
  · rw [if_neg hroot]
    apply uniq_modifyAtParts hfname _ _ hu
    intro m hm
    apply hf
    rw [getNodeAtPath, if_neg hroot]
    exact hm

/-- Path-level version of `walk_modifyAtParts_self`: looking the modified
path up again yields the image of the original node. -/
theorem getNodeAtPath_modifyAtPath_self {f : FileSystemNode → FileSystemNode}
    (hfname : ∀ x, (f x).name = x.name) {fs : FileSystemNode} {path : String}
    {m : FileSystemNode} (hm : getNodeAtPath fs path = some m) :
    getNodeAtPath (modifyAtPath fs path f) path = some (f m) := by
  rw [modifyAtPath]
  by_cases hroot : path = "/"
  · rw [if_pos hroot]
    rw [hroot] at hm ⊢
    simp at hm
    simp [hm]
  · rw [if_neg hroot]
    rw [getNodeAtPath, if_neg hroot] at hm ⊢
    exact walk_modifyAtParts_self hfname _ _ _ hm

/-- Deep uniqueness transfers along `getNodeAtPath`. -/
theorem getNodeAtPath_uniq {fs : FileSystemNode} {path : String} {m : FileSystemNode}
    (hu : uniqDeep fs = true) (hm : getNodeAtPath fs path = some m) :
    uniqDeep m = true := by
  rw [getNodeAtPath] at hm
  by_cases hroot : path = "/"
  · rw [if_pos hroot] at hm
    injection hm with hm
    subst hm
    exact hu
  · rw [if_neg hroot] at hm
    exact walk_uniq _ hu hm

/-- A successful directory resolution transfers along `Sim`. -/
theorem sim_getNodeAtPath {fs fs' : FileSystemNode} (hsim : Sim fs fs')
    {path : String} {m : FileSystemNode} (hm : getNodeAtPath fs path = some m) :
    ∃ m', getNodeAtPath fs' path = some m' ∧ m'.type = m.type := by
  rw [getNodeAtPath] at hm
  by_cases hroot : path = "/"
  · rw [if_pos hroot] at hm
    injection hm with hm
    subst hm
    exact ⟨fs', by rw [getNodeAtPath, if_pos hroot], hsim.type_eq⟩
  · rw [if_neg hroot] at hm
    obtain ⟨m', hm', hsim'⟩ := walk_sim _ hsim hm
    exact ⟨m', by rw [getNodeAtPath, if_neg hroot]; exact hm', hsim'.type_eq⟩

/-! ## The `ls` comparator: totality, transitivity, and uniqueness of the
sorted order on lists with distinct names -/

/-- The comparator's rank: directories sort strictly before files. -/
def nodeRank (t : NodeType) : Nat :=
  if t = .directory then 0 else 1

theorem childLe_iff {a b : FileSystemNode} :
    childLe a b = true ↔
      (nodeRank a.type < nodeRank b.type ∨
        (nodeRank a.type = nodeRank b.type ∧ a.name ≤ b.name)) := by
  rw [childLe]
  by_cases h : a.type = b.type
  · rw [if_neg (by simp [h])]
    simp [nodeRank, h, decide_eq_true_eq]
  · rw [if_pos (by simpa using h)]
    cases ha : a.type <;> cases hb : b.type <;>
      simp_all [nodeRank, decide_eq_true_eq]

theorem childLe_total (a b : FileSystemNode) :
    childLe a b = true ∨ childLe b a = true := by
  rw [childLe_iff, childLe_iff]
  rcases Nat.lt_trichotomy (nodeRank a.type) (nodeRank b.type) with h | h | h
  · exact Or.inl (Or.inl h)
  · rcases le_total a.name b.name with hn | hn
    · exact Or.inl (Or.inr ⟨h, hn⟩)
    · exact Or.inr (Or.inr ⟨h.symm, hn⟩)
  · exact Or.inr (Or.inl h)

theorem childLe_trans {a b c : FileSystemNode} (hab : childLe a b = true)
    (hbc : childLe b c = true) : childLe a c = true := by
  rw [childLe_iff] at hab hbc ⊢
  rcases hab with h1 | ⟨h1, hn1⟩
  · rcases hbc with h2 | ⟨h2, _⟩
    · exact Or.inl (h1.trans h2)
    · exact Or.inl (h2 ▸ h1)
  · rcases hbc with h2 | ⟨h2, hn2⟩
    · exact Or.inl (h1 ▸ h2)
    · exact Or.inr ⟨h1.trans h2, le_trans hn1 hn2⟩

/-- Two mutually-`childLe` nodes agree on type and name. -/
theorem childLe_antisymm_key {a b : FileSystemNode} (hab : childLe a b = true)
    (hba : childLe b a = true) : a.type = b.type ∧ a.name = b.name := by
  rw [childLe_iff] at hab hba
  rcases hab with h1 | ⟨h1, hn1⟩
  · rcases hba with h2 | ⟨h2, _⟩
    · omega
    · omega
  · rcases hba with h2 | ⟨h2, hn2⟩
    · omega
    · refine ⟨?_, le_antisymm hn1 hn2⟩
      have : nodeRank a.type = nodeRank b.type := h1
      cases ha : a.type <;> cases hb : b.type <;> simp_all [nodeRank]

theorem insertChild_perm (a : FileSystemNode) (l : List FileSystemNode) :
    List.Perm (insertChild a l) (a :: l) := by
  induction l with
  | nil => exact List.Perm.refl _
  | cons b bs ih =>
    rw [insertChild]
    by_cases h : childLe a b
    · rw [if_pos h]
    · rw [if_neg h]
      exact (List.Perm.cons b ih).trans (List.Perm.swap a b bs)

theorem sortChildren_perm (l : List FileSystemNode) :
    List.Perm (sortChildren l) l := by
  induction l with
  | nil => exact List.Perm.refl _
  | cons a as ih =>
    rw [sortChildren]
    exact (insertChild_perm a (sortChildren as)).trans (List.Perm.cons a ih)

/-- Sortedness of a child list: every element is `childLe`-below all later
elements (directories before files, names alphabetical within a type). -/
def SortedNodes (l : List FileSystemNode) : Prop :=
  l.Pairwise (fun a b => childLe a b = true)

theorem insertChild_sorted {a : FileSystemNode} {l : List FileSystemNode}
    (hl : SortedNodes l) : SortedNodes (insertChild a l) := by
  induction l with
  | nil => simp [insertChild, SortedNodes]
  | cons b bs ih =>
    rw [SortedNodes, List.pairwise_cons] at hl
    rw [insertChild]
    by_cases h : childLe a b
    · rw [if_pos h]
      rw [SortedNodes, List.pairwise_cons]
      constructor
      · intro x hx
        rcases List.mem_cons.mp hx with hx | hx
        · exact hx ▸ h
        · exact childLe_trans h (hl.1 x hx)
      · exact List.Pairwise.cons hl.1 hl.2
    · rw [if_neg h]
      have hba : childLe b a = true := by
        rcases childLe_total a b with hab | hba
        · exact absurd hab h
        · exact hba
      rw [SortedNodes, List.pairwise_cons]
      constructor
      · intro x hx
        have hx' : x ∈ a :: bs := (insertChild_perm a bs).mem_iff.mp hx
        rcases List.mem_cons.mp hx' with hx' | hx'
        · exact hx' ▸ hba
        · exact hl.1 x hx'
      · exact ih hl.2

theorem sortChildren_sorted (l : List FileSystemNode) : SortedNodes (sortChildren l) := by
  induction l with
  | nil => simp [sortChildren, SortedNodes]
  | cons a as ih => exact insertChild_sorted ih

/-- A sorted list with pairwise-distinct names is determined by its
multiset of elements. -/
theorem sorted_nodup_eq_of_perm : ∀ (l₁ l₂ : List FileSystemNode), List.Perm l₁ l₂ →
    SortedNodes l₁ → SortedNodes l₂ →
    (l₁.map FileSystemNode.name).Nodup → l₁ = l₂ := by
  intro l₁
  induction l₁ with
  | nil =>
    intro l₂ hperm _ _ _
    exact (List.Perm.nil_eq hperm).symm ▸ rfl
  | cons a t₁ ih =>
    intro l₂ hperm hs₁ hs₂ hnd
    cases l₂ with
    | nil => exact absurd hperm.symm (by simp)
    | cons b t₂ =>
      rw [SortedNodes, List.pairwise_cons] at hs₁ hs₂
      by_cases hab : a = b
      · subst hab
        have ht : List.Perm t₁ t₂ := (List.perm_cons a).mp hperm
        have : t₁ = t₂ := by
          apply ih t₂ ht hs₁.2 hs₂.2
          simpa [List.nodup_cons] using hnd.of_cons
        rw [this]
      · exfalso
        have hbmem : b ∈ a :: t₁ := hperm.mem_iff.mpr (List.mem_cons_self b t₂)
        have hamem : a ∈ b :: t₂ := hperm.mem_iff.mp (List.mem_cons_self a t₁)
        have hbt₁ : b ∈ t₁ := by
          rcases List.mem_cons.mp hbmem with h | h
          · exact absurd h.symm hab
          · exact h
        have hat₂ : a ∈ t₂ := by
          rcases List.mem_cons.mp hamem with h | h
          · exact absurd h hab
          · exact h
        have h1 : childLe a b = true := hs₁.1 b hbt₁
        have h2 : childLe b a = true := hs₂.1 a hat₂
        have hkey := childLe_antisymm_key h1 h2
        rw [List.map_cons, List.nodup_cons] at hnd
        exact hnd.1 (hkey.2 ▸ List.mem_map_of_mem FileSystemNode.name hbt₁)

/-- On a list with pairwise-distinct names, a by-name lookup is invariant
under permutation. -/
theorem find?_perm_nodup {cs cs' : List FileSystemNode} (hperm : List.Perm cs cs')
    (hnd : (cs.map FileSystemNode.name).Nodup) (a : String) :
    cs'.find? (fun c => c.name = a) = cs.find? (fun c => c.name = a) := by
  cases hfc : cs.find? (fun c => c.name = a) with
  | none =>
    rw [List.find?_eq_none] at hfc ⊢
    intro x hx
    exact hfc x (hperm.mem_iff.mpr hx)
  | some d =>
    have hda : d.name = a := by simpa using List.find?_some hfc
    have hdmem : d ∈ cs' := hperm.mem_iff.mp (List.mem_of_find?_eq_some hfc)
    have hnd' : (cs'.map FileSystemNode.name).Nodup := (hperm.map _).nodup_iff.mp hnd
    clear hfc hperm hnd
    induction cs' with
    | nil => simp at hdmem
    | cons e t ih =>
      by_cases hea : e.name = a
      · rw [find?_name_cons_pos t hea]
        rcases List.mem_cons.mp hdmem with h | h
        · rw [h]
        · exfalso
          rw [List.map_cons, List.nodup_cons] at hnd'
          exact hnd'.1 (by rw [hea, ← hda]; exact List.mem_map_of_mem FileSystemNode.name h)
      · rw [find?_name_cons_neg t hea]
        rcases List.mem_cons.mp hdmem with h | h
        · exact absurd (h ▸ hda) hea
        · rw [List.map_cons, List.nodup_cons] at hnd'
          exact ih h hnd'.2

/-! ## Per-mutation similarity and uniqueness lemmas -/

theorem uniqList_append {l₁ l₂ : List FileSystemNode} :
    uniqList (l₁ ++ l₂) = (uniqList l₁ && uniqList l₂) := by
  induction l₁ with
  | nil => simp [uniqList]
  | cons c cs ih => simp [uniqList, ih, Bool.and_assoc]

theorem uniqList_of_forall {l : List FileSystemNode}
    (h : ∀ c ∈ l, uniqDeep c = true) : uniqList l = true := by
  induction l with
  | nil => rfl
  | cons c cs ih =>
    rw [uniqList, Bool.and_eq_true]
    exact ⟨h c (List.mem_cons_self c cs), ih fun d hd => h d (List.mem_cons_of_mem c hd)⟩

/-- Appending a child preserves every by-name lookup that succeeded. -/
theorem sim_pushChild (child m : FileSystemNode) : Sim m (pushChild child m) := by
  refine Sim.mk (by simp [pushChild]) (by simp [pushChild]) ?_ ?_
  · intro a ha
    rw [findChild] at ha
    cases hfc : (m.children.getD []).find? (fun c => c.name = a) with
    | none => rw [hfc] at ha; simp at ha
    | some d =>
      have : findChild (pushChild child m) a = some d := by
        rw [findChild, pushChild]
        simp only [FileSystemNode.children_withChildren, Option.getD_some]
        exact find?_append_some hfc [child]
      rw [this]
      rfl
  · intro a d d' hd hd'
    rw [findChild] at hd
    rw [findChild, pushChild] at hd'
    simp only [FileSystemNode.children_withChildren, Option.getD_some] at hd'
    rw [find?_append_some hd [child]] at hd'
    injection hd' with hd'
    subst hd'
    exact sim_refl d

/-- Appending a child with a fresh name preserves deep uniqueness. -/
theorem uniq_pushChild {m child : FileSystemNode} {nm : String}
    (hu : uniqDeep m = true) (hc : uniqDeep child = true) (hname : child.name = nm)
    (hfresh : (m.children.getD []).find? (fun c => c.name = nm) = none) :
    uniqDeep (pushChild child m) = true := by
  cases m with
  | mk n t cs cnt =>
    have hcs := uniqDeep_children hu
    simp only [FileSystemNode.children_mk] at hcs hfresh ⊢
    rw [pushChild]
    simp only [FileSystemNode.children_mk, FileSystemNode.withChildren_mk]
    apply uniqDeep_mk_some
    · rw [List.map_append, List.map_singleton]
      rw [List.nodup_append]
      refine ⟨hcs.1, List.nodup_singleton _, ?_⟩
      intro x hx
      simp only [List.mem_singleton]
      obtain ⟨c, hcmem, hcx⟩ := List.mem_map.mp hx
      rw [List.find?_eq_none] at hfresh
      intro hxeq
      exact hfresh c hcmem (by simp [hcx, hxeq, hname])
    · rw [uniqList_append, Bool.and_eq_true]
      exact ⟨hcs.2, by simp [uniqList, hc]⟩

/-- Sorting the children of a deep-unique node preserves every by-name
lookup that succeeded. -/
theorem sim_sortNode {m : FileSystemNode} (hu : uniqDeep m = true) :
    Sim m (m.withChildren (some (sortChildren (m.children.getD [])))) := by
  have hnd := (uniqDeep_children hu).1
  have hperm : List.Perm (m.children.getD []) (sortChildren (m.children.getD [])) :=
    (sortChildren_perm _).symm
  refine Sim.mk (by simp) (by simp) ?_ ?_
  · intro a ha
    rw [findChild] at ha
    rw [findChild]
    simp only [FileSystemNode.children_withChildren, Option.getD_some]
    rw [find?_perm_nodup hperm hnd a]
    exact ha
  · intro a d d' hd hd'
    rw [findChild] at hd
    rw [findChild] at hd'
    simp only [FileSystemNode.children_withChildren, Option.getD_some] at hd'
    rw [find?_perm_nodup hperm hnd a, hd] at hd'
    injection hd' with hd'
    subst hd'
    exact sim_refl d

/-- Sorting the children of a deep-unique node preserves deep uniqueness. -/
theorem uniq_sortNode {m : FileSystemNode} (hu : uniqDeep m = true) :
    uniqDeep (m.withChildren (some (sortChildren (m.children.getD [])))) = true := by
  have hcs := uniqDeep_children hu
  have hperm : List.Perm (sortChildren (m.children.getD [])) (m.children.getD []) :=
    sortChildren_perm _
  cases m with
  | mk n t cs cnt =>
    simp only [FileSystemNode.children_mk, FileSystemNode.withChildren_mk] at hperm hcs ⊢
    apply uniqDeep_mk_some
    · exact (hperm.map _).nodup_iff.mpr hcs.1
    · exact uniqList_of_forall fun c hc => uniqList_mem hcs.2 (hperm.mem_iff.mp hc)

/-- Overwriting a node's content changes nothing a lookup can observe. -/
theorem sim_withContent (d : FileSystemNode) (c : Option String) :
    Sim d (d.withContent c) := by
  refine Sim.mk (by simp) (by simp) ?_ ?_
  · intro a ha
    rw [findChild] at ha ⊢
    simpa [FileSystemNode.children_withContent] using ha
  · intro a x x' hx hx'
    rw [findChild] at hx
    rw [findChild, FileSystemNode.children_withContent] at hx'
    rw [hx] at hx'
    injection hx' with hx'
    subst hx'
    exact sim_refl x

theorem uniqDeep_withContent (d : FileSystemNode) (c : Option String) :
    uniqDeep (d.withContent c) = uniqDeep d := by
  cases d with
  | mk n t cs cnt =>
    cases cs with
    | none => rfl
    | some cs => rfl

/-- Updating one named child's content in place preserves every by-name
lookup that succeeded. -/
theorem sim_updateContentNode (m : FileSystemNode) (nm : String) (content : String) :
    Sim m (m.withChildren
      (m.children.map (replaceFirstNamed nm (fun c => c.withContent (some content))))) := by
  have hg : ∀ x, (FileSystemNode.withContent x (some content)).name = x.name := by simp
  cases m with
  | mk n t cs cnt =>
    cases cs with
    | none =>
      simp only [FileSystemNode.children_mk, Option.map_none', FileSystemNode.withChildren_mk]
      exact sim_refl _
    | some cs =>
      simp only [FileSystemNode.children_mk, Option.map_some', FileSystemNode.withChildren_mk]
      refine Sim.mk (by simp) (by simp) ?_ ?_
      · intro a ha
        rw [findChild_mk_some] at ha
        rw [findChild_mk_some]
        cases hfc : cs.find? (fun c => c.name = a) with
        | none => rw [hfc] at ha; simp at ha
        | some d =>
          by_cases hap : a = nm
          · subst hap
            rw [find?_replaceFirstNamed_self hg hfc]
            rfl
          · rw [find?_replaceFirstNamed_ne hap hg, hfc]
            rfl
      · intro a d d' hd hd'
        rw [findChild_mk_some] at hd hd'
        by_cases hap : a = nm
        · subst hap
          rw [find?_replaceFirstNamed_self hg hd] at hd'
          injection hd' with hd'
          subst hd'
          exact sim_withContent d _
        · rw [find?_replaceFirstNamed_ne hap hg, hd] at hd'
          injection hd' with hd'
          subst hd'
          exact sim_refl d

/-- Updating one named child's content in place preserves deep uniqueness. -/
theorem uniq_updateContentNode {m : FileSystemNode} (hu : uniqDeep m = true)
    (nm : String) (content : String) :
    uniqDeep (m.withChildren
      (m.children.map (replaceFirstNamed nm (fun c => c.withContent (some content))))) =
      true := by
  have hg : ∀ x, (FileSystemNode.withContent x (some content)).name = x.name := by simp
  cases m with
  | mk n t cs cnt =>
    cases cs with
    | none => simpa using hu
    | some cs =>
      have hcs := uniqDeep_children hu
      simp only [FileSystemNode.children_mk, Option.getD_some] at hcs
      simp only [FileSystemNode.children_mk, Option.map_some', FileSystemNode.withChildren_mk]
      apply uniqDeep_mk_some
      · rw [map_name_replaceFirstNamed hg]
        exact hcs.1
      · apply uniqList_replaceFirstNamed hcs.2
        intro c hc
        rw [uniqDeep_withContent]
        exact uniqList_mem hcs.2 (List.mem_of_find?_eq_some hc)

/-! ## Command-level frame and preservation lemmas -/

/-- A path resolving to an existing directory node. -/
def dirAt (fs : FileSystemNode) (path : String) : Prop :=
  ∃ n, getNodeAtPath fs path = some n ∧ n.type = .directory

theorem dirAt_sim {fs fs' : FileSystemNode} (hsim : Sim fs fs') {path : String}
    (h : dirAt fs path) : dirAt fs' path := by
  obtain ⟨n, hn, hdir⟩ := h
  obtain ⟨n', hn', htype⟩ := sim_getNodeAtPath hsim hn
  exact ⟨n', hn', htype.trans hdir⟩

theorem pushChild_name (child : FileSystemNode) :
    ∀ x, (pushChild child x).name = x.name := by
  intro x
  simp [pushChild]

/-- A failed `createFile` leaves the tree untouched. -/
theorem createFile_false {fs : FileSystemNode} {path fileName content : String}
    (h : (createFile fs path fileName content).1 = false) :
    (createFile fs path fileName content).2 = fs := by
  rw [createFile] at h ⊢
  generalize hget : getNodeAtPath fs path = res at h ⊢
  cases res with
  | none => rfl
  | some parent =>
    dsimp only at h ⊢
    by_cases htype : parent.type ≠ NodeType.directory
    · rw [if_pos htype]
    · rw [if_neg htype] at h ⊢
      generalize hfc : (parent.children.getD []).find? (fun c => c.name = fileName) = fres
        at h ⊢
      cases fres with
      | some c => rfl
      | none => simp at h

/-- A failed `updateFile` leaves the tree untouched. -/
theorem updateFile_false {fs : FileSystemNode} {path fileName content : String}
    (h : (updateFile fs path fileName content).1 = false) :
    (updateFile fs path fileName content).2 = fs := by
  rw [updateFile] at h ⊢
  generalize hget : getNodeAtPath fs path = res at h ⊢
  cases res with
  | none => rfl
  | some parent =>
    dsimp only at h ⊢
    by_cases htype : parent.type ≠ NodeType.directory
    · rw [if_pos htype]
    · rw [if_neg htype] at h ⊢
      generalize hfc : (parent.children.getD []).find? (fun c => c.name = fileName) = fres
        at h ⊢
      cases fres with
      | none => rfl
      | some existing =>
        dsimp only at h ⊢
        by_cases hf : existing.type ≠ NodeType.file
        · rw [if_pos hf]
        · rw [if_neg hf] at h
          simp at h

/-- `createFile` preserves `Sim` and deep uniqueness. -/
theorem createFile_sim_uniq (fs : FileSystemNode) (path fileName content : String) :
    Sim fs (createFile fs path fileName content).2 ∧
      (uniqDeep fs = true → uniqDeep (createFile fs path fileName content).2 = true) := by
  rw [createFile]
  generalize hget : getNodeAtPath fs path = res
  cases res with
  | none => exact ⟨sim_refl fs, fun hu => hu⟩
  | some parent =>
    dsimp only
    by_cases htype : parent.type ≠ NodeType.directory
    · rw [if_pos htype]
      exact ⟨sim_refl fs, fun hu => hu⟩
    · rw [if_neg htype]
      generalize hfc : (parent.children.getD []).find? (fun c => c.name = fileName) = fres
      cases fres with
      | some c => exact ⟨sim_refl fs, fun hu => hu⟩
      | none =>
        constructor
        · exact sim_modifyAtPath (pushChild_name _) fs path
            (fun m _ => sim_pushChild _ m)
        · intro hu
          apply uniq_modifyAtPath (pushChild_name _) fs path hu
          intro m hm
          rw [hget] at hm
          injection hm with hm
          subst hm
          exact uniq_pushChild (getNodeAtPath_uniq hu hget) (by rfl) (by simp) hfc

/-- `updateFile` preserves `Sim` and deep uniqueness. -/
theorem updateFile_sim_uniq (fs : FileSystemNode) (path fileName content : String) :
    Sim fs (updateFile fs path fileName content).2 ∧
      (uniqDeep fs = true → uniqDeep (updateFile fs path fileName content).2 = true) := by
  rw [updateFile]
  generalize hget : getNodeAtPath fs path = res
  cases res with
  | none => exact ⟨sim_refl fs, fun hu => hu⟩
  | some parent =>
    dsimp only
    by_cases htype : parent.type ≠ NodeType.directory
    · rw [if_pos htype]
      exact ⟨sim_refl fs, fun hu => hu⟩
    · rw [if_neg htype]
      generalize hfc : (parent.children.getD []).find? (fun c => c.name = fileName) = fres
      cases fres with
      | none => exact ⟨sim_refl fs, fun hu => hu⟩
      | some existing =>
        dsimp only
        by_cases hf : existing.type ≠ NodeType.file
        · rw [if_pos hf]
          exact ⟨sim_refl fs, fun hu => hu⟩
        · rw [if_neg hf]
          constructor
          · exact sim_modifyAtPath (by simp) fs path
              (fun m _ => sim_updateContentNode m fileName content)
          · intro hu
            apply uniq_modifyAtPath (by simp) fs path hu
            intro m hm
            exact uniq_updateContentNode (getNodeAtPath_uniq hu hm) fileName content

/-- `executeComment` preserves `Sim` and deep uniqueness of the tree. -/
theorem executeComment_sim_uniq (args : List String) (s : TerminalState) (nickname : String) :
    Sim s.fileSystem (executeComment args s nickname).2 ∧
      (uniqDeep s.fileSystem = true →
        uniqDeep (executeComment args s nickname).2 = true) := by
  rw [executeComment]
  by_cases hargs : args.isEmpty
  · rw [if_pos hargs]
    exact ⟨sim_refl _, fun hu => hu⟩
  · rw [if_neg hargs]
    have hcf := createFile_sim_uniq s.fileSystem s.currentDirectory (nickname ++ ".txt")
      (String.intercalate " " args)
    by_cases hok : (createFile s.fileSystem s.currentDirectory (nickname ++ ".txt")
        (String.intercalate " " args)).1
    · simp only [hok, if_pos]
      exact hcf
    · rw [Bool.not_eq_true] at hok
      simp only [hok, Bool.false_eq_true, if_neg, not_false_iff]
      rw [createFile_false hok]
      have huf := updateFile_sim_uniq s.fileSystem s.currentDirectory (nickname ++ ".txt")
        (String.intercalate " " args)
      by_cases hok2 : (updateFile s.fileSystem s.currentDirectory (nickname ++ ".txt")
          (String.intercalate " " args)).1
      · simp only [hok2, if_pos]
        exact huf
      · rw [Bool.not_eq_true] at hok2
        simp only [hok2, Bool.false_eq_true, if_neg, not_false_iff]
        exact huf

/-- The listing body preserves `Sim` (on deep-unique trees) and deep
uniqueness. -/
theorem executeLsAt_sim_uniq (targetPath : String) (s : TerminalState)
    (hu : uniqDeep s.fileSystem = true) :
    Sim s.fileSystem (executeLsAt targetPath s).2 ∧
      uniqDeep (executeLsAt targetPath s).2 = true := by
  rw [executeLsAt]
  by_cases hv : isValidPath targetPath
  · rw [if_neg (by simpa using hv)]
    generalize hget : getNodeAtPath s.fileSystem targetPath = res
    cases res with
    | none => exact ⟨sim_refl _, hu⟩
    | some targetNode =>
      dsimp only
      by_cases htype : targetNode.type ≠ NodeType.directory
      · rw [if_pos htype]
        exact ⟨sim_refl _, hu⟩
      · rw [if_neg htype]
        by_cases hlen : (targetNode.children.getD []).length = 0
        · rw [if_pos hlen]
          exact ⟨sim_refl _, hu⟩
        · rw [if_neg hlen]
          constructor
          · apply sim_modifyAtPath (by simp) s.fileSystem _
            intro m hm
            rw [hget] at hm
            injection hm with hm
            subst hm
            exact sim_sortNode (getNodeAtPath_uniq hu hget)
          · apply uniq_modifyAtPath (by simp) s.fileSystem _ hu
            intro m hm
            rw [hget] at hm
            injection hm with hm
            subst hm
            exact uniq_sortNode (getNodeAtPath_uniq hu hget)
  · rw [if_pos (by simpa using hv)]
    exact ⟨sim_refl _, hu⟩

/-- `executeLs` preserves `Sim` (on deep-unique trees) and deep
uniqueness. -/
theorem executeLs_sim_uniq (args : List String) (s : TerminalState)
    (hu : uniqDeep s.fileSystem = true) :
    Sim s.fileSystem (executeLs args s).2 ∧ uniqDeep (executeLs args s).2 = true :=
  executeLsAt_sim_uniq (lsTargetPath args s) s hu

theorem cdCheckPath_ok {newPath targetPath : String} {s : TerminalState}
    (h : (cdCheckPath newPath targetPath s).error = none) :
    isValidPath newPath = true ∧ dirAt s.fileSystem newPath := by
  rw [cdCheckPath] at h
  by_cases hv : isValidPath newPath
  · rw [if_neg (by simpa using hv)] at h
    generalize hget : getNodeAtPath s.fileSystem newPath = res at h
    cases res with
    | none => simp at h
    | some targetNode =>
      dsimp only at h
      by_cases htype : targetNode.type ≠ NodeType.directory
      · rw [if_pos htype] at h
        simp at h
      · exact ⟨hv, ⟨targetNode, hget, by simpa using htype⟩⟩
  · rw [if_pos (by simpa using hv)] at h
    simp at h

/-- A successful `cd` guarantees that the path the hook will commit
resolves to a directory (given that the home directory does). -/
theorem executeCd_ok {args : List String} {s : TerminalState}
    (h : (executeCd args s).error = none) (nickname : String)
    (hhome : dirAt s.fileSystem ("/home/" ++ nickname)) :
    dirAt s.fileSystem (cdNewPath nickname s.currentDirectory args.head?) := by
  rw [executeCd] at h
  rw [cdNewPath.eq_def]
  generalize hhead : args.head? = th at h ⊢
  cases th with
  | none => exact hhome
  | some t =>
    dsimp only at h ⊢
    by_cases h1 : t = "" ∨ t = "~"
    · rw [if_pos h1]
      exact hhome
    · rw [if_neg h1] at h ⊢
      by_cases h2 : t = ".."
      · rw [if_pos h2]
        rw [if_neg (by rw [h2]; decide)] at h
        have := cdCheckPath_ok h
        rw [cdResolve, if_pos h2] at this
        exact this.2
      · rw [if_neg h2]
        by_cases h3 : t = "-"
        · rw [if_pos h3]
          exact hhome
        · rw [if_neg h3] at h ⊢
          exact (cdCheckPath_ok h).2

/-- A successful `mkdir` validation characterizes its inputs. -/
theorem executeMkdir_ok {args : List String} {s : TerminalState}
    (h : (executeMkdir args s).error = none) :
    ∃ dirName curr, args.head? = some dirName ∧ dirName ≠ "" ∧
      strContains dirName "/" = false ∧
      getNodeAtPath s.fileSystem s.currentDirectory = some curr ∧
      curr.type = .directory ∧
      (curr.children.getD []).find? (fun c => c.name = dirName) = none := by
  rw [executeMkdir] at h
  generalize hhead : args.head? = th at h
  cases th with
  | none => simp at h
  | some dirName =>
    dsimp only at h
    by_cases h1 : dirName = "" ∨ strContains dirName "/"
    · rw [if_pos h1] at h
      simp at h
    · rw [if_neg h1] at h
      generalize hget : getNodeAtPath s.fileSystem s.currentDirectory = res at h
      cases res with
      | none => simp at h
      | some curr =>
        dsimp only at h
        by_cases htype : curr.type ≠ NodeType.directory
        · rw [if_pos htype] at h
          simp at h
        · rw [if_neg htype] at h
          generalize hfc : (curr.children.getD []).find? (fun c => c.name = dirName) = fres
            at h
          cases fres with
          | some c => simp at h
          | none =>
            push_neg at h1
            refine ⟨dirName, curr, rfl, h1.1, by simpa using h1.2, rfl,
              by simpa using htype, hfc⟩

theorem sim_mkdirCommit (fs : FileSystemNode) (cwd dirName : String) :
    Sim fs (mkdirCommit fs cwd dirName) := by
  rw [mkdirCommit]
  generalize hget : getNodeAtPath fs cwd = res
  cases res with
  | none => exact sim_refl fs
  | some curr =>
    dsimp only
    by_cases htype : curr.type ≠ NodeType.directory
    · rw [if_pos htype]
      exact sim_refl fs
    · rw [if_neg htype]
      generalize hfc : (curr.children.getD []).find?
        (fun child => child.name = dirName && child.type = NodeType.directory) = fres
      cases fres with
      | some c => exact sim_refl fs
      | none =>
        exact sim_modifyAtPath (pushChild_name _) fs cwd (fun m _ => sim_pushChild _ m)

theorem uniq_mkdirCommit {fs : FileSystemNode} {cwd dirName : String}
    (hu : uniqDeep fs = true)
    (hfresh : ∀ curr, getNodeAtPath fs cwd = some curr →
      (curr.children.getD []).find? (fun c => c.name = dirName) = none) :
    uniqDeep (mkdirCommit fs cwd dirName) = true := by
  rw [mkdirCommit]
  generalize hget : getNodeAtPath fs cwd = res
  cases res with
  | none => exact hu
  | some curr =>
    dsimp only
    by_cases htype : curr.type ≠ NodeType.directory
    · rw [if_pos htype]
      exact hu
    · rw [if_neg htype]
      generalize hfc : (curr.children.getD []).find?
        (fun child => child.name = dirName && child.type = NodeType.directory) = fres
      cases fres with
      | some c => exact hu
      | none =>
        apply uniq_modifyAtPath (pushChild_name _) fs cwd hu
        intro m hm
        rw [hget] at hm
        injection hm with hm
        subst hm
        exact uniq_pushChild (getNodeAtPath_uniq hu hget) (by rfl) (by simp)
          (hfresh curr hget)

/-- The interpreter never writes `currentDirectory`, `history` or
`historyIndex`: the state after a call differs from the state before at
most in the `fileSystem` field. -/
theorem executeCommandState_frame (command : String) (s : TerminalState) (nickname : String) :
    (executeCommandState command s nickname).2.currentDirectory = s.currentDirectory ∧
      (executeCommandState command s nickname).2.history = s.history ∧
      (executeCommandState command s nickname).2.historyIndex = s.historyIndex :=
  ⟨rfl, rfl, rfl⟩

/-- The interpreter's filesystem effect preserves `Sim` and deep
uniqueness. -/
theorem executeCommand_sim_uniq (command : String) (s : TerminalState) (nickname : String)
    (hu : uniqDeep s.fileSystem = true) :
    Sim s.fileSystem (executeCommand command s nickname).2 ∧
      uniqDeep (executeCommand command s nickname).2 = true := by
  rw [executeCommand]
  by_cases h1 : (commandTokens command).headD "" = "cd"
  · rw [if_pos h1]
    exact ⟨sim_refl _, hu⟩
  · rw [if_neg h1]
    by_cases h2 : (commandTokens command).headD "" = "ls"
    · rw [if_pos h2]
      exact executeLs_sim_uniq _ s hu
    · rw [if_neg h2]
      by_cases h3 : (commandTokens command).headD "" = "mkdir"
      · rw [if_pos h3]
        exact ⟨sim_refl _, hu⟩
      · rw [if_neg h3]
        by_cases h4 : (commandTokens command).headD "" = "chess"
        · rw [if_pos h4]
          exact ⟨sim_refl _, hu⟩
        · rw [if_neg h4]
          by_cases h5 : (commandTokens command).headD "" = "comment"
          · rw [if_pos h5]
            have h := executeComment_sim_uniq (commandTokens command).tail s nickname
            exact ⟨h.1, h.2 hu⟩
          · rw [if_neg h5]
            by_cases h6 : (commandTokens command).headD "" = "open"
            · rw [if_pos h6]
              exact ⟨sim_refl _, hu⟩
            · rw [if_neg h6]
              by_cases h7 : (commandTokens command).headD "" = "clear"
              · rw [if_pos h7]
                exact ⟨sim_refl _, hu⟩
              · rw [if_neg h7]
                by_cases h8 : (commandTokens command).headD "" = "pwd"
                · rw [if_pos h8]
                  exact ⟨sim_refl _, hu⟩
                · rw [if_neg h8]
                  by_cases h9 : (commandTokens command).headD "" = "whoami"
                  · rw [if_pos h9]
                    exact ⟨sim_refl _, hu⟩
                  · rw [if_neg h9]
                    by_cases h10 : (commandTokens command).headD "" = "help"
                    · rw [if_pos h10]
                      exact ⟨sim_refl _, hu⟩
                    · rw [if_neg h10]
                      by_cases h11 : (commandTokens command).headD "" ≠ ""
                      · rw [if_pos h11]
                        exact ⟨sim_refl _, hu⟩
                      · rw [if_neg h11]
                        exact ⟨sim_refl _, hu⟩

/-- Dispatch: a line whose first token is `cd` runs `executeCd` and leaves
the tree untouched. -/
theorem executeCommand_cd {command : String} (s : TerminalState) (nickname : String)
    (h : (commandTokens command).headD "" = "cd") :
    executeCommand command s nickname =
      (executeCd (commandTokens command).tail s, s.fileSystem) := by
  rw [executeCommand]
  rw [if_pos h]

/-- Dispatch: a line whose first token is `mkdir` runs `executeMkdir` and
leaves the tree untouched. -/
theorem executeCommand_mkdir {command : String} (s : TerminalState) (nickname : String)
    (h : (commandTokens command).headD "" = "mkdir") :
    executeCommand command s nickname =
      (executeMkdir (commandTokens command).tail s, s.fileSystem) := by
  rw [executeCommand]
  rw [if_neg (by rw [h]; decide), if_neg (by rw [h]; decide), if_pos h]

/-- The session-state invariant: a deep-unique tree in which both the
current directory and the home directory resolve to directory nodes. -/
def InvState (nickname : String) (s : TerminalState) : Prop :=
  uniqDeep s.fileSystem = true ∧ dirAt s.fileSystem s.currentDirectory ∧
    dirAt s.fileSystem ("/home/" ++ nickname)

/-- One shell step preserves the session-state invariant. -/
theorem executeCommandLine_inv (nickname : String) (sess : Session) (command : String)
    (hinv : InvState nickname sess.state) :
    InvState nickname (executeCommandLine nickname sess command).state := by
  obtain ⟨hu, hcwd, hhome⟩ := hinv
  have hframe := executeCommand_sim_uniq command sess.state nickname hu
  rw [executeCommandLine]
  by_cases htrim : strTrim command = ""
  · rw [if_pos htrim]
    exact ⟨hu, hcwd, hhome⟩
  · rw [if_neg htrim]
    by_cases hcd : (commandTokens command).headD "" = "cd"
    · rw [if_pos hcd]
      rw [executeCommand_cd sess.state nickname hcd]
      dsimp only
      by_cases herr : (executeCd (commandTokens command).tail sess.state).error = none
      · rw [if_pos herr]
        exact ⟨hu, executeCd_ok herr nickname hhome, hhome⟩
      · rw [if_neg herr]
        exact ⟨hu, hcwd, hhome⟩
    · rw [if_neg hcd]
      by_cases hmk : (commandTokens command).headD "" = "mkdir"
      · rw [if_pos hmk]
        rw [executeCommand_mkdir sess.state nickname hmk]
        dsimp only
        by_cases herr : (executeMkdir (commandTokens command).tail sess.state).error = none
        · rw [if_pos herr]
          obtain ⟨dirName, curr, hhead, hne, hslash, hget, hdir, hfc⟩ := executeMkdir_ok herr
          rw [hhead]
          dsimp only
          rw [if_pos hne]
          have hfresh : ∀ curr', getNodeAtPath sess.state.fileSystem
              sess.state.currentDirectory = some curr' →
              (curr'.children.getD []).find? (fun c => c.name = dirName) = none := by
            intro curr' h'
            rw [hget] at h'
            injection h' with h'
            subst h'
            exact hfc
          have hsim := sim_mkdirCommit sess.state.fileSystem
            sess.state.currentDirectory dirName
          exact ⟨uniq_mkdirCommit hu hfresh, dirAt_sim hsim hcwd, dirAt_sim hsim hhome⟩
        · rw [if_neg herr]
          exact ⟨hu, hcwd, hhome⟩
      · rw [if_neg hmk]
        by_cases hcl : (commandTokens command).headD "" = "clear"
        · rw [if_pos hcl]
          exact ⟨hframe.2, dirAt_sim hframe.1 hcwd, dirAt_sim hframe.1 hhome⟩
        · rw [if_neg hcl]
          exact ⟨hframe.2, dirAt_sim hframe.1 hcwd, dirAt_sim hframe.1 hhome⟩

/-! ## The initial session state satisfies the invariant -/

theorem splitCharList_not_mem {sep : Char} : ∀ {l : List Char}, sep ∉ l →
    splitCharList sep l = [l] := by
  intro l
  induction l with
  | nil => intro _; rfl
  | cons c cs ih =>
    intro h
    rw [splitCharList, if_neg (by intro hc; subst hc; exact h (List.mem_cons_self _ _))]
    rw [ih (fun hm => h (List.mem_cons_of_mem c hm))]

theorem toList_append (s t : String) : (s ++ t).toList = s.toList ++ t.toList := by
  simp [String.toList, String.data_append]

theorem strMk_toList (s : String) : String.mk s.toList = s := by
  cases s
  rfl

theorem pathParts_home (nickname : String) (hne : nickname ≠ "")
    (hslash : '/' ∉ nickname.toList) :
    pathParts ("/home/" ++ nickname) = ["home", nickname] := by
  have hnl : splitCharList '/' nickname.toList = [nickname.toList] :=
    splitCharList_not_mem hslash
  have e1 : splitCharList '/' ('/' :: nickname.toList) = [] :: [nickname.toList] := by
    rw [splitCharList, if_pos rfl, hnl]
  have e2 : splitCharList '/' ('e' :: '/' :: nickname.toList) = ['e'] :: [nickname.toList] := by
    rw [splitCharList, if_neg (by decide), e1]
  have e3 : splitCharList '/' ('m' :: 'e' :: '/' :: nickname.toList) =
      ['m', 'e'] :: [nickname.toList] := by
    rw [splitCharList, if_neg (by decide), e2]
  have e4 : splitCharList '/' ('o' :: 'm' :: 'e' :: '/' :: nickname.toList) =
      ['o', 'm', 'e'] :: [nickname.toList] := by
    rw [splitCharList, if_neg (by decide), e3]
  have e5 : splitCharList '/' ('h' :: 'o' :: 'm' :: 'e' :: '/' :: nickname.toList) =
      ['h', 'o', 'm', 'e'] :: [nickname.toList] := by
    rw [splitCharList, if_neg (by decide), e4]
  have e6 : splitCharList '/' ('/' :: 'h' :: 'o' :: 'm' :: 'e' :: '/' :: nickname.toList) =
      [] :: ['h', 'o', 'm', 'e'] :: [nickname.toList] := by
    rw [splitCharList, if_pos rfl, e5]
  rw [pathParts, splitChar, toList_append,
    show "/home/".toList = ['/', 'h', 'o', 'm', 'e', '/'] from rfl]
  simp only [List.cons_append, List.nil_append]
  rw [e6]
  rw [List.map_cons, List.map_cons, List.map_cons, List.map_nil]
  rw [strMk_toList nickname]
  rw [show String.mk [] = "" from rfl,
    show String.mk ['h', 'o', 'm', 'e'] = "home" from rfl]
  simp [List.filter_cons, hne]

theorem home_ne_root (nickname : String) : ("/home/" ++ nickname) ≠ "/" := by
  intro h
  have := congrArg String.toList h
  rw [toList_append] at this
  simp [String.toList] at this

/-- The freshly created filesystem is deep-unique. -/
theorem uniqDeep_createFileSystem (nickname : String) :
    uniqDeep (createFileSystem nickname) = true := by
  simp [createFileSystem, uniqDeep, uniqList]

/-- In the fresh filesystem, the home directory resolves to a directory. -/
theorem dirAt_home_createFileSystem (nickname : String) (hne : nickname ≠ "")
    (hslash : '/' ∉ nickname.toList) :
    dirAt (createFileSystem nickname) ("/home/" ++ nickname) := by
  rw [dirAt, getNodeAtPath, if_neg (home_ne_root nickname),
    pathParts_home nickname hne hslash]
  simp [createFileSystem, walkParts, findChild]

/-- The initial session satisfies the invariant. -/
theorem initialSession_inv (nickname : String) (hne : nickname ≠ "")
    (hslash : '/' ∉ nickname.toList) :
    InvState nickname (initialSession nickname).state := by
  refine ⟨uniqDeep_createFileSystem nickname, ?_, ?_⟩
  · exact dirAt_home_createFileSystem nickname hne hslash
  · exact dirAt_home_createFileSystem nickname hne hslash

/-- Any run of command lines from the initial session preserves the
invariant. -/
theorem runCommands_inv (nickname : String) : ∀ (commands : List String) (sess : Session),
    InvState nickname sess.state →
    InvState nickname (runCommands nickname sess commands).state := by
  intro commands
  induction commands with
  | nil => intro sess h; exact h
  | cons c cs ih =>
    intro sess h
    exact ih (executeCommandLine nickname sess c) (executeCommandLine_inv nickname sess c h)

/-! ## Helpers for stating the claims -/

/-- The children list of the node at a path (empty when the path does not
resolve). -/
def childrenAt (fs : FileSystemNode) (path : String) : List FileSystemNode :=
  match getNodeAtPath fs path with
  | none => []
  | some n => n.children.getD []

/-- How many children of the node at `path` carry the name `nm`. -/
def countNamed (fs : FileSystemNode) (path nm : String) : Nat :=
  (childrenAt fs path).countP (fun c => c.name = nm)

/-- The `comment` handler together with the outcome of the fire-and-forget
replication to the hosted store: the code dispatches
`void upsertActiveComment(...)` and discards the promise, so the outcome
argument is ignored exactly as the code ignores it. -/
def commentWithReplication (_replicationOk : Bool) (args : List String)
    (state : TerminalState) (nickname : String) : CommandResult × FileSystemNode :=
  executeComment args state nickname

theorem commandTokens_trim_empty {command : String} (h : strTrim command = "") :
    commandTokens command = [""] := by
  rw [commandTokens, h]
  rfl

theorem isValidPath_startsWith {path : String} (h : isValidPath path = true) :
    strStartsWith path "/" = true := by
  rw [isValidPath] at h
  by_cases hs : strStartsWith path "/"
  · exact hs
  · rw [if_pos (by simpa using hs)] at h
    exact absurd h (by simp)

theorem startsWith_slash_not_dash {path : String}
    (h : strStartsWith path "/" = true) : strStartsWith path "-" = false := by
  rw [strStartsWith] at h ⊢
  cases hl : path.toList with
  | nil =>
    rw [hl] at h
    exact absurd h (by decide)
  | cons c cs =>
    rw [hl] at h
    rw [show ("/".toList) = ['/'] from rfl] at h
    rw [show ("-".toList) = ['-'] from rfl]
    rw [List.isPrefixOf] at h
    rw [List.isPrefixOf]
    simp only [Bool.and_eq_true, beq_iff_eq] at h
    rw [← h.1]
    simp

theorem lsTargetPath_of_valid {path : String} (s : TerminalState)
    (h : isValidPath path = true) : lsTargetPath [path] s = path := by
  rw [lsTargetPath]
  rw [if_neg (by rw [startsWith_slash_not_dash (isValidPath_startsWith h)]; simp)]

/-- `createFile` succeeds exactly by appending the new file at the parent. -/
theorem createFile_success {fs : FileSystemNode} {path fileName content : String}
    {node : FileSystemNode}
    (hget : getNodeAtPath fs path = some node) (hdir : node.type = .directory)
    (hfresh : (node.children.getD []).find? (fun c => c.name = fileName) = none) :
    createFile fs path fileName content =
      (true, modifyAtPath fs path
        (pushChild (FileSystemNode.mk fileName .file none (some content)))) := by
  rw [createFile, hget]
  dsimp only
  rw [if_neg (by rw [hdir]; simp), hfresh]

/-- `createFile` fails when a child of the name already exists. -/
theorem createFile_exists {fs : FileSystemNode} {path fileName content : String}
    {node c : FileSystemNode}
    (hget : getNodeAtPath fs path = some node) (hdir : node.type = .directory)
    (hfind : (node.children.getD []).find? (fun c => c.name = fileName) = some c) :
    createFile fs path fileName content = (false, fs) := by
  rw [createFile, hget]
  dsimp only
  rw [if_neg (by rw [hdir]; simp), hfind]

/-- `updateFile` succeeds exactly by replacing the found file's content. -/
theorem updateFile_success {fs : FileSystemNode} {path fileName content : String}
    {node existing : FileSystemNode}
    (hget : getNodeAtPath fs path = some node) (hdir : node.type = .directory)
    (hfind : (node.children.getD []).find? (fun c => c.name = fileName) = some existing)
    (hfile : existing.type = .file) :
    updateFile fs path fileName content =
      (true, modifyAtPath fs path (fun n =>
        n.withChildren (n.children.map (replaceFirstNamed fileName
          (fun c => c.withContent (some content)))))) := by
  rw [updateFile, hget]
  dsimp only
  rw [if_neg (by rw [hdir]; simp), hfind]
  dsimp only
  rw [if_neg (by rw [hfile]; simp)]

theorem replaceFirstNamed_append_fresh {nm : String} {g : FileSystemNode → FileSystemNode}
    {cs : List FileSystemNode} {d : FileSystemNode}
    (h : cs.find? (fun c => c.name = nm) = none) (hd : d.name = nm) :
    replaceFirstNamed nm g (cs ++ [d]) = cs ++ [g d] := by
  induction cs with
  | nil => simp [replaceFirstNamed, hd]
  | cons c cs ih =>
    by_cases hc : c.name = nm
    · rw [find?_name_cons_pos cs hc] at h
      exact absurd h (by simp)
    · rw [find?_name_cons_neg cs hc] at h
      simp only [List.cons_append, replaceFirstNamed, hc, ite_false, if_neg, not_false_iff]
      exact congrArg (fun l => c :: l) (ih h)

theorem withChildren_withChildren (node : FileSystemNode)
    (a b : Option (List FileSystemNode)) :
    (node.withChildren a).withChildren b = node.withChildren b := by
  cases node; rfl

/-! ## The claims -/

/-- The room document produced by a successful `submitMove`: `fen`, `turn`
and `lastMove` replaced, `version` incremented by one, everything else
kept. -/
def appliedMove (d : RoomDoc) (move : Move) (nextFen : String) (nextTurn : Turn) : RoomDoc :=
  { d with fen := nextFen, turn := nextTurn, lastMove := some move, version := d.version + 1 }

/-- C9: a `submitMove` transaction applies the move if and only if the room
document exists and its stored version equals the caller's `expectVersion`;
on success the stored `fen`, `turn` and `lastMove` are replaced and
`version` increases by exactly one; otherwise the transaction throws and
the stored document is unchanged. -/
theorem C9_submitMove_optimistic_concurrency (store : Option RoomDoc) (move : Move)
    (expectVersion : Nat) (nextFen : String) (nextTurn : Turn) :
    ((∃ doc, submitMove store move expectVersion nextFen nextTurn = .ok doc) ↔
      (∃ d, store = some d ∧ d.version = expectVersion)) ∧
    (∀ d, store = some d → d.version = expectVersion →
      submitMove store move expectVersion nextFen nextTurn =
          .ok (appliedMove d move nextFen nextTurn) ∧
      submitMoveStore store move expectVersion nextFen nextTurn =
          some (appliedMove d move nextFen nextTurn)) ∧
    ((¬ ∃ d, store = some d ∧ d.version = expectVersion) →
      (∃ e, submitMove store move expectVersion nextFen nextTurn = .error e) ∧
      submitMoveStore store move expectVersion nextFen nextTurn = store) := by
  cases store with
  | none =>
    refine ⟨⟨?_, ?_⟩, ?_, ?_⟩
    · rintro ⟨doc, hdoc⟩
      rw [submitMove] at hdoc
      exact Except.noConfusion hdoc
    · rintro ⟨d, hd, -⟩
      exact Option.noConfusion hd
    · intro d hd
      exact absurd hd (by simp)
    · intro _
      exact ⟨⟨"Room not found", rfl⟩, rfl⟩
  | some d =>
    by_cases hv : d.version = expectVersion
    · have hsm : submitMove (some d) move expectVersion nextFen nextTurn =
          .ok (appliedMove d move nextFen nextTurn) := by
        simp [submitMove, hv, appliedMove]
      refine ⟨⟨?_, ?_⟩, ?_, ?_⟩
      · intro _
        exact ⟨d, rfl, hv⟩
      · intro _
        exact ⟨_, hsm⟩
      · intro d' hd' _
        injection hd' with hd'
        subst hd'
        exact ⟨hsm, by rw [submitMoveStore, hsm]⟩
      · intro hne
        exact absurd ⟨d, rfl, hv⟩ hne
    · have hsm : submitMove (some d) move expectVersion nextFen nextTurn =
          .error "Stale state" := by
        simp [submitMove, hv]
      refine ⟨⟨?_, ?_⟩, ?_, ?_⟩
      · rintro ⟨doc, hdoc⟩
        rw [hsm] at hdoc
        exact Except.noConfusion hdoc
      · rintro ⟨d', hd', hv'⟩
        injection hd' with hd'
        subst hd'
        exact absurd hv' hv
      · intro d' hd' hv'
        injection hd' with hd'
        subst hd'
        exact absurd hv' hv
      · intro _
        exact ⟨⟨"Stale state", hsm⟩, by rw [submitMoveStore, hsm]⟩

/-- Witness for C9 at a concrete room document. -/
theorem C9_submitMove_optimistic_concurrency_witness :
    submitMoveStore
        (some { fen := "fen0", turn := Turn.w, playersWhite := some "w1",
                playersBlack := some "b1", host := "w1", status := "active",
                lastMove := none, version := 3 })
        { fromSq := "e2", toSq := "e4", promotion := none } 3 "fen1" Turn.b =
      some (appliedMove
        { fen := "fen0", turn := Turn.w, playersWhite := some "w1",
          playersBlack := some "b1", host := "w1", status := "active",
          lastMove := none, version := 3 }
        { fromSq := "e2", toSq := "e4", promotion := none } "fen1" Turn.b) :=
  ((C9_submitMove_optimistic_concurrency
      (some { fen := "fen0", turn := Turn.w, playersWhite := some "w1",
              playersBlack := some "b1", host := "w1", status := "active",
              lastMove := none, version := 3 })
      { fromSq := "e2", toSq := "e4", promotion := none } 3 "fen1" Turn.b).2.1
    _ rfl rfl).2

/-- C10: an `ls` whose first argument starts with `-` behaves exactly like
`ls` with no arguments: the flag-looking argument and everything after it
are ignored and the current directory is listed. -/
theorem C10_ls_dash_ignores_arguments (args : List String) (s : TerminalState) (a : String)
    (hhead : args.head? = some a) (hdash : strStartsWith a "-" = true) :
    executeLs args s = executeLs [] s := by
  cases args with
  | nil => exact absurd hhead (by simp)
  | cons b rest =>
    have hb : b = a := by
      rw [List.head?_cons] at hhead
      injection hhead
    rw [executeLs, executeLs]
    have h1 : lsTargetPath (b :: rest) s = s.currentDirectory := by
      rw [lsTargetPath, hb, if_pos hdash]
    rw [h1]
    rfl

/-- Witness for C10 on a concrete session. -/
theorem C10_ls_dash_ignores_arguments_witness :
    executeLs ["-la", "junk"] (initialSession "a").state =
      executeLs [] (initialSession "a").state :=
  C10_ls_dash_ignores_arguments ["-la", "junk"] (initialSession "a").state "-la"
    (by rfl) (by decide)

/-- C5 counterexample: the name `x!` contains `!`, a character outside the
claimed charset of letters, digits, `.`, `_`, `-`, yet `mkdir x!` is not
rejected: the handler reports no error and the shell creates the
directory. -/
theorem C5_counterexample_charset_not_enforced :
    (executeMkdir ["x!"] (initialSession "a").state).error = none ∧
    countNamed (executeCommandLine "a" (initialSession "a") "mkdir x!").state.fileSystem
        "/home/a" "x!" = 1 := by
  constructor
  · rfl
  · rfl

/-- C5 (amended): `mkdir <name>` succeeds only if the name is non-empty and
contains no `/`; a name containing `/` is rejected with an invalid-argument
error, and in that case the shell does not change the filesystem.  (The
code enforces no further charset restriction.) -/
theorem C5_amended_mkdir_name_validation (args : List String) (s : TerminalState) :
    ((executeMkdir args s).error = none →
      ∃ nm, args.head? = some nm ∧ nm ≠ "" ∧ strContains nm "/" = false) ∧
    (∀ nm, args.head? = some nm → strContains nm "/" = true →
      executeMkdir args s =
        { output := [],
          error := some ("mkdir: cannot create directory '" ++ nm ++ "': Invalid argument") }) ∧
    (∀ (nickname : String) (sess : Session) (command : String) (nm : String),
      commandTokens command = "mkdir" :: args →
      args.head? = some nm → strContains nm "/" = true →
      (executeCommandLine nickname sess command).state.fileSystem = sess.state.fileSystem) := by
  have hrej : ∀ (s' : TerminalState) (nm : String), args.head? = some nm →
      strContains nm "/" = true →
      executeMkdir args s' =
        { output := [],
          error := some ("mkdir: cannot create directory '" ++ nm ++ "': Invalid argument") } := by
    intro s' nm hhead hcont
    rw [executeMkdir, hhead]
    dsimp only
    rw [if_pos (Or.inr hcont)]
  refine ⟨?_, fun nm hhead hcont => hrej s nm hhead hcont, ?_⟩
  · intro h
    rw [executeMkdir] at h
    generalize hhead : args.head? = th at h
    cases th with
    | none => simp at h
    | some nm =>
      dsimp only at h
      by_cases h1 : nm = "" ∨ strContains nm "/"
      · rw [if_pos h1] at h
        simp at h
      · push_neg at h1
        exact ⟨nm, rfl, h1.1, by simpa using h1.2⟩
  · intro nickname sess command nm htok hhead hcont
    have htrim : ¬ strTrim command = "" := by
      intro h0
      rw [commandTokens_trim_empty h0] at htok
      simp at htok
    have hcd' : (commandTokens command).headD "" = "mkdir" := by
      rw [htok]
      rfl
    have htail : (commandTokens command).tail = args := by
      rw [htok]
      rfl
    rw [executeCommandLine, if_neg htrim]
    rw [if_neg (by rw [hcd']; decide), if_pos hcd']
    rw [executeCommand_mkdir sess.state nickname hcd']
    dsimp only
    rw [htail, hrej sess.state nm hhead hcont]
    rw [if_neg (by simp)]

/-- Witness for the amended C5 on a concrete rejected name. -/
theorem C5_amended_mkdir_name_validation_witness :
    executeMkdir ["a/b"] (initialSession "a").state =
      { output := [],
        error := some "mkdir: cannot create directory 'a/b': Invalid argument" } :=
  (C5_amended_mkdir_name_validation ["a/b"] (initialSession "a").state).2.1
    "a/b" rfl (by decide)

/-- C6 counterexample: `ls` on a path that resolves to an existing file
node does not print the file's name: it fails with `Not a directory` and
produces no output line. -/
theorem C6_counterexample_ls_file_errors :
    (executeLs ["/home/a/Documents/readme.txt"] (initialSession "a").state).1 =
      { output := [],
        error := some "ls: /home/a/Documents/readme.txt: Not a directory" } := by
  rfl

/-- C6 (amended): for every syntactically valid path that resolves to a
file node, `ls <path>` fails with `ls: <path>: Not a directory`, produces
no output and leaves the filesystem untouched. -/
theorem C6_amended_ls_file_not_a_directory (s : TerminalState) (path : String)
    (n : FileSystemNode) (hv : isValidPath path = true)
    (hget : getNodeAtPath s.fileSystem path = some n) (hf : n.type = .file) :
    executeLs [path] s =
      ({ output := [], error := some ("ls: " ++ path ++ ": Not a directory") },
        s.fileSystem) := by
  rw [executeLs, lsTargetPath_of_valid s hv]
  rw [executeLsAt, if_neg (by simpa using hv), hget]
  dsimp only
  rw [if_pos (by rw [hf]; decide)]

/-- Witness for the amended C6 on the initial filesystem's readme file. -/
theorem C6_amended_ls_file_not_a_directory_witness :
    executeLs ["/home/a/Documents/readme.txt"] (initialSession "a").state =
      ({ output := [],
          error := some "ls: /home/a/Documents/readme.txt: Not a directory" },
        (initialSession "a").state.fileSystem) :=
  C6_amended_ls_file_not_a_directory (initialSession "a").state
    "/home/a/Documents/readme.txt"
    (FileSystemNode.mk "readme.txt" .file none (some "Welcome to the terminal!"))
    (by decide) (by rfl) rfl

/-- C7: `ls` on an existing directory succeeds; its output is the
directory's children's names sorted with directories before files and
alphabetically within each group (`SortedNodes` is exactly the pairwise
comparator order); the sorted list is a permutation of the children; for
children with distinct names the sorted result is independent of insertion
order; and an empty directory yields no output. -/
theorem C7_ls_directory_sorted_listing (s : TerminalState) (path : String)
    (node : FileSystemNode) (hv : isValidPath path = true)
    (hget : getNodeAtPath s.fileSystem path = some node)
    (hdir : node.type = .directory) :
    (executeLs [path] s).1.error = none ∧
    ((node.children.getD []) = [] → (executeLs [path] s).1.output = []) ∧
    (executeLs [path] s).1.output =
      (sortChildren (node.children.getD [])).map FileSystemNode.name ∧
    List.Perm (sortChildren (node.children.getD [])) (node.children.getD []) ∧
    SortedNodes (sortChildren (node.children.getD [])) ∧
    (∀ cs', List.Perm cs' (node.children.getD []) →
      ((node.children.getD []).map FileSystemNode.name).Nodup →
      sortChildren cs' = sortChildren (node.children.getD [])) := by
  have hindep : ∀ cs', List.Perm cs' (node.children.getD []) →
      ((node.children.getD []).map FileSystemNode.name).Nodup →
      sortChildren cs' = sortChildren (node.children.getD []) := by
    intro cs' hp hnd
    apply sorted_nodup_eq_of_perm
    · exact (sortChildren_perm cs').trans (hp.trans (sortChildren_perm _).symm)
    · exact sortChildren_sorted _
    · exact sortChildren_sorted _
    · have h1 : List.Perm ((sortChildren cs').map FileSystemNode.name)
          ((node.children.getD []).map FileSystemNode.name) :=
        ((sortChildren_perm cs').trans hp).map _
      exact h1.nodup_iff.mpr hnd
  rw [executeLs, lsTargetPath_of_valid s hv]
  rw [executeLsAt, if_neg (by simpa using hv), hget]
  dsimp only
  rw [if_neg (by rw [hdir]; simp)]
  by_cases hlen : (node.children.getD []).length = 0
  · rw [if_pos hlen]
    have hnil : node.children.getD [] = [] := List.length_eq_zero.mp hlen
    refine ⟨rfl, fun _ => rfl, ?_, sortChildren_perm _, sortChildren_sorted _, hindep⟩
    rw [hnil]
    rfl
  · rw [if_neg hlen]
    exact ⟨rfl, fun h => absurd (by rw [h]; rfl) hlen, rfl, sortChildren_perm _,
      sortChildren_sorted _, hindep⟩

/-- Witness for C7 on the initial home directory. -/
theorem C7_ls_directory_sorted_listing_witness :
    (executeLs ["/home/a"] (initialSession "a").state).1.error = none ∧
    (executeLs ["/home/a"] (initialSession "a").state).1.output =
      (sortChildren ((FileSystemNode.mk "a" .directory
        (some
          [ .mk "active" .directory (some []) none,
            .mk "Documents" .directory
              (some [.mk "readme.txt" .file none (some "Welcome to the terminal!")])
              none,
            .mk "Downloads" .directory (some []) none,
            .mk "Desktop" .directory (some []) none ]) none).children.getD
          [])).map FileSystemNode.name := by
  have h := C7_ls_directory_sorted_listing (initialSession "a").state "/home/a"
    (FileSystemNode.mk "a" .directory
      (some
        [ .mk "active" .directory (some []) none,
          .mk "Documents" .directory
            (some [.mk "readme.txt" .file none (some "Welcome to the terminal!")])
            none,
          .mk "Downloads" .directory (some []) none,
          .mk "Desktop" .directory (some []) none ]) none)
    (by decide) (by rfl) rfl
  exact ⟨h.1, h.2.2.1⟩

theorem executeCommand_fs_unchanged (command : String) (s : TerminalState) (nickname : String)
    (hls : (commandTokens command).headD "" ≠ "ls")
    (hcm : (commandTokens command).headD "" ≠ "comment") :
    (executeCommand command s nickname).2 = s.fileSystem := by
  rw [executeCommand]
  by_cases h1 : (commandTokens command).headD "" = "cd"
  · rw [if_pos h1]
  · rw [if_neg h1, if_neg hls]
    by_cases h3 : (commandTokens command).headD "" = "mkdir"
    · rw [if_pos h3]
    · rw [if_neg h3]
      by_cases h4 : (commandTokens command).headD "" = "chess"
      · rw [if_pos h4]
      · rw [if_neg h4, if_neg hcm]
        by_cases h6 : (commandTokens command).headD "" = "open"
        · rw [if_pos h6]
        · rw [if_neg h6]
          by_cases h7 : (commandTokens command).headD "" = "clear"
          · rw [if_pos h7]
          · rw [if_neg h7]
            by_cases h8 : (commandTokens command).headD "" = "pwd"
            · rw [if_pos h8]
            · rw [if_neg h8]
              by_cases h9 : (commandTokens command).headD "" = "whoami"
              · rw [if_pos h9]
              · rw [if_neg h9]
                by_cases h10 : (commandTokens command).headD "" = "help"
                · rw [if_pos h10]
                · rw [if_neg h10]
                  by_cases h11 : (commandTokens command).headD "" ≠ ""
                  · rw [if_pos h11]
                  · rw [if_neg h11]

/-- C1 counterexample: `executeCommand` is not free of state mutation: a
`comment` line creates the comment file in the filesystem tree during the
interpreter call itself, so the session state after the call differs from
the state before. -/
theorem C1_counterexample_comment_mutates :
    (executeCommandState "comment hi" (initialSession "a").state "a").2 ≠
      (initialSession "a").state := by
  intro h
  have e1 : getFileContent
      ((executeCommandState "comment hi" (initialSession "a").state "a").2).fileSystem
      "/home/a/a.txt" = some "hi" := by rfl
  rw [h] at e1
  exact absurd e1 (by decide)

/-- C1 (amended): `executeCommand` never writes `currentDirectory`,
`history` or `historyIndex`, and for every command other than `ls` (which
re-sorts the listed directory's children in place) and `comment` (which
creates or updates the comment file in place) it leaves the session state
entirely unchanged; `cd` and `mkdir` mutations are applied by the caller. -/
theorem C1_amended_interpreter_frame (command : String) (s : TerminalState)
    (nickname : String) :
    ((executeCommandState command s nickname).2.currentDirectory = s.currentDirectory ∧
      (executeCommandState command s nickname).2.history = s.history ∧
      (executeCommandState command s nickname).2.historyIndex = s.historyIndex) ∧
    ((commandTokens command).headD "" ≠ "ls" →
      (commandTokens command).headD "" ≠ "comment" →
      (executeCommandState command s nickname).2 = s) := by
  refine ⟨⟨rfl, rfl, rfl⟩, ?_⟩
  intro hls hcm
  show ({ s with fileSystem := (executeCommand command s nickname).2 } : TerminalState) = s
  rw [executeCommand_fs_unchanged command s nickname hls hcm]

/-- Witness for the amended C1 on a concrete non-mutating command. -/
theorem C1_amended_interpreter_frame_witness :
    (executeCommandState "pwd" (initialSession "a").state "a").2 =
      (initialSession "a").state :=
  (C1_amended_interpreter_frame "pwd" (initialSession "a").state "a").2
    (by decide) (by decide)

/-- C2: whenever the `cd` handler reports an error, running the command
line leaves `currentDirectory` and the filesystem unchanged and appends to
the display log exactly the echoed command plus one error line. -/
theorem C2_cd_error_no_mutation (nickname : String) (sess : Session) (command e : String)
    (hcd : (commandTokens command).headD "" = "cd")
    (herr : (executeCommand command sess.state nickname).1.error = some e) :
    (executeCommandLine nickname sess command).state.currentDirectory =
        sess.state.currentDirectory ∧
    (executeCommandLine nickname sess command).state.fileSystem = sess.state.fileSystem ∧
    (executeCommandLine nickname sess command).lines =
      sess.lines ++
        [{ type := .command, content := command, command := some command,
            directory := some sess.state.currentDirectory },
          { type := .error, content := e, command := none, directory := none }] ∧
    ((executeCommandLine nickname sess command).lines.filter
        (fun l => l.type = LineType.error)).length =
      (sess.lines.filter (fun l => l.type = LineType.error)).length + 1 := by
  have htrim : ¬ strTrim command = "" := by
    intro h0
    rw [commandTokens_trim_empty h0] at hcd
    exact absurd hcd (by decide)
  rw [executeCommand_cd sess.state nickname hcd] at herr
  dsimp only at herr
  rw [executeCommandLine, if_neg htrim, if_pos hcd]
  rw [executeCommand_cd sess.state nickname hcd]
  dsimp only
  rw [if_neg (by rw [herr]; simp)]
  have hlines : appendResult
      (sess.lines ++
        [{ type := .command, content := command, command := some command,
            directory := some sess.state.currentDirectory }])
      (executeCd (commandTokens command).tail sess.state) =
      sess.lines ++
        [{ type := .command, content := command, command := some command,
            directory := some sess.state.currentDirectory },
          { type := .error, content := e, command := none, directory := none }] := by
    rw [appendResult, herr]
    simp
  refine ⟨rfl, rfl, hlines, ?_⟩
  rw [hlines]
  simp [List.filter_append]

/-- Witness for C2 on a concrete failing `cd`. -/
theorem C2_cd_error_no_mutation_witness :
    (executeCommandLine "a" (initialSession "a") "cd nope").state.currentDirectory =
        (initialSession "a").state.currentDirectory ∧
    (executeCommandLine "a" (initialSession "a") "cd nope").state.fileSystem =
        (initialSession "a").state.fileSystem ∧
    ((executeCommandLine "a" (initialSession "a") "cd nope").lines.filter
        (fun l => l.type = LineType.error)).length =
      ((initialSession "a").lines.filter (fun l => l.type = LineType.error)).length + 1 := by
  have h := C2_cd_error_no_mutation "a" (initialSession "a") "cd nope"
    "cd: nope: No such file or directory" (by decide) (by rfl)
  exact ⟨h.1, h.2.1, h.2.2.2⟩

theorem find?_name_type_none {cs : List FileSystemNode} {x : String}
    (h : cs.find? (fun c => c.name = x) = none) :
    cs.find? (fun child => child.name = x && child.type = NodeType.directory) = none := by
  rw [List.find?_eq_none] at h ⊢
  intro c hc hq
  simp only [Bool.and_eq_true, decide_eq_true_eq] at hq
  exact h c hc (by simp [hq.1])

/-- C4: after a successful `mkdir x`, running `mkdir x` again in the same
current directory yields the `File exists` conflict error, and the
directory ends up with exactly one child named `x`. -/
theorem C4_mkdir_twice_conflict (nickname : String) (sess : Session) (command x : String)
    (hparse : commandTokens command = ["mkdir", x])
    (hok : (executeCommand command sess.state nickname).1.error = none) :
    (executeCommand command (executeCommandLine nickname sess command).state nickname).1.error =
      some ("mkdir: cannot create directory '" ++ x ++ "': File exists") ∧
    countNamed
        (executeCommandLine nickname (executeCommandLine nickname sess command)
          command).state.fileSystem
        sess.state.currentDirectory x = 1 := by
  have hcd' : (commandTokens command).headD "" = "mkdir" := by
    rw [hparse]
    rfl
  have htail : (commandTokens command).tail = [x] := by
    rw [hparse]
    rfl
  have htrim : ¬ strTrim command = "" := by
    intro h0
    rw [commandTokens_trim_empty h0] at hparse
    exact absurd hparse (by simp)
  rw [executeCommand_mkdir sess.state nickname hcd'] at hok
  dsimp only at hok
  rw [htail] at hok
  obtain ⟨dirName, curr, hhead, hne, hslash, hget, hdir, hfc⟩ := executeMkdir_ok hok
  have hdx : x = dirName := by
    rw [show (([x] : List String).head?) = some x from rfl] at hhead
    injection hhead
  subst hdx
  have hstate1 : (executeCommandLine nickname sess command).state =
      { currentDirectory := sess.state.currentDirectory,
        fileSystem := mkdirCommit sess.state.fileSystem sess.state.currentDirectory x,
        history := sess.state.history ++ [command], historyIndex := -1 } := by
    rw [executeCommandLine, if_neg htrim]
    rw [if_neg (by rw [hcd']; decide), if_pos hcd']
    rw [executeCommand_mkdir sess.state nickname hcd']
    dsimp only
    rw [htail, if_pos hok, List.head?_cons]
    dsimp only
    rw [if_pos hne]
  have hcommit : mkdirCommit sess.state.fileSystem sess.state.currentDirectory x =
      modifyAtPath sess.state.fileSystem sess.state.currentDirectory
        (pushChild (FileSystemNode.mk x .directory (some []) none)) := by
    rw [mkdirCommit, hget]
    dsimp only
    rw [if_neg (by rw [hdir]; simp), find?_name_type_none hfc]
  have hget1 : getNodeAtPath
      (mkdirCommit sess.state.fileSystem sess.state.currentDirectory x)
      sess.state.currentDirectory =
      some (pushChild (FileSystemNode.mk x .directory (some []) none) curr) := by
    rw [hcommit]
    exact getNodeAtPath_modifyAtPath_self (pushChild_name _) hget
  have hfind2 : ((pushChild (FileSystemNode.mk x .directory (some []) none)
        curr).children.getD []).find? (fun c => c.name = x) =
      some (FileSystemNode.mk x .directory (some []) none) := by
    rw [pushChild]
    simp only [FileSystemNode.children_withChildren, Option.getD_some]
    rw [find?_append_none hfc]
    exact find?_name_cons_pos [] rfl
  have herr2 : (executeMkdir [x] (executeCommandLine nickname sess command).state).error =
      some ("mkdir: cannot create directory '" ++ x ++ "': File exists") := by
    rw [hstate1]
    rw [executeMkdir]
    rw [show (([x] : List String).head?) = some x from rfl]
    dsimp only
    rw [if_neg (by push_neg; exact ⟨hne, by simp [hslash]⟩)]
    rw [hget1]
    dsimp only
    rw [if_neg (by rw [pushChild]; simp [hdir])]
    rw [hfind2]
  constructor
  · rw [executeCommand_mkdir (executeCommandLine nickname sess command).state nickname hcd']
    dsimp only
    rw [htail]
    exact herr2
  · have hstate2 : (executeCommandLine nickname (executeCommandLine nickname sess command)
        command).state.fileSystem = (executeCommandLine nickname sess command).state.fileSystem := by
      rw [executeCommandLine, if_neg htrim]
      rw [if_neg (by rw [hcd']; decide), if_pos hcd']
      rw [executeCommand_mkdir (executeCommandLine nickname sess command).state nickname hcd']
      dsimp only
      rw [htail]
      rw [if_neg (by rw [herr2]; simp)]
    rw [countNamed, childrenAt, hstate2, hstate1]
    dsimp only
    rw [hget1]
    rw [pushChild]
    simp only [FileSystemNode.children_withChildren, Option.getD_some]
    rw [List.countP_append]
    have hzero : (curr.children.getD []).countP (fun c => c.name = x) = 0 := by
      rw [List.countP_eq_zero]
      rw [List.find?_eq_none] at hfc
      exact hfc
    rw [hzero]
    simp

/-- Witness for C4 on a concrete session. -/
theorem C4_mkdir_twice_conflict_witness :
    (executeCommand "mkdir proj"
        (executeCommandLine "a" (initialSession "a") "mkdir proj").state "a").1.error =
      some "mkdir: cannot create directory 'proj': File exists" ∧
    countNamed
        (executeCommandLine "a" (executeCommandLine "a" (initialSession "a") "mkdir proj")
          "mkdir proj").state.fileSystem
        (initialSession "a").state.currentDirectory "proj" = 1 :=
  C4_mkdir_twice_conflict "a" (initialSession "a") "mkdir proj" "proj"
    (by rfl) (by rfl)

/-- C8: in a current directory with no child named `<nickname>.txt`, a
first `comment` with non-empty arguments creates that file with the
space-joined arguments as content and reports success; a second `comment`
with new arguments updates the same file's content in place, the directory
keeping exactly one child of that name; and the in-memory outcome is the
same whatever the outcome of the fire-and-forget replication. -/
theorem C8_comment_create_then_update (s : TerminalState) (nickname : String)
    (args1 args2 : List String) (node : FileSystemNode)
    (h1 : args1 ≠ []) (h2 : args2 ≠ [])
    (hget : getNodeAtPath s.fileSystem s.currentDirectory = some node)
    (hdir : node.type = .directory)
    (hfresh : (node.children.getD []).find?
      (fun c => c.name = nickname ++ ".txt") = none) :
    (executeComment args1 s nickname).1 =
      { output := ["file created (shared)"], error := none } ∧
    getNodeAtPath (executeComment args1 s nickname).2 s.currentDirectory =
      some (node.withChildren (some ((node.children.getD []) ++
        [FileSystemNode.mk (nickname ++ ".txt") .file none
          (some (String.intercalate " " args1))]))) ∧
    (executeComment args2
        { s with fileSystem := (executeComment args1 s nickname).2 } nickname).1 =
      { output := ["file updated (shared)"], error := none } ∧
    getNodeAtPath
        (executeComment args2
          { s with fileSystem := (executeComment args1 s nickname).2 } nickname).2
        s.currentDirectory =
      some (node.withChildren (some ((node.children.getD []) ++
        [FileSystemNode.mk (nickname ++ ".txt") .file none
          (some (String.intercalate " " args2))]))) ∧
    countNamed
        (executeComment args2
          { s with fileSystem := (executeComment args1 s nickname).2 } nickname).2
        s.currentDirectory (nickname ++ ".txt") = 1 ∧
    (∀ b1 b2 : Bool, commentWithReplication b1 args1 s nickname =
      commentWithReplication b2 args1 s nickname) := by
  have hcf1 : createFile s.fileSystem s.currentDirectory (nickname ++ ".txt")
      (String.intercalate " " args1) =
      (true, modifyAtPath s.fileSystem s.currentDirectory
        (pushChild (FileSystemNode.mk (nickname ++ ".txt") .file none
          (some (String.intercalate " " args1))))) :=
    createFile_success hget hdir hfresh
  have hrun1 : executeComment args1 s nickname =
      ({ output := ["file created (shared)"], error := none },
        modifyAtPath s.fileSystem s.currentDirectory
          (pushChild (FileSystemNode.mk (nickname ++ ".txt") .file none
            (some (String.intercalate " " args1))))) := by
    rw [executeComment, if_neg (by simp [h1])]
    dsimp only
    rw [hcf1]
    dsimp only
    rw [if_pos rfl]
  have hget1 : getNodeAtPath (executeComment args1 s nickname).2 s.currentDirectory =
      some (pushChild (FileSystemNode.mk (nickname ++ ".txt") .file none
        (some (String.intercalate " " args1))) node) := by
    rw [hrun1]
    exact getNodeAtPath_modifyAtPath_self (pushChild_name _) hget
  have hpush : pushChild (FileSystemNode.mk (nickname ++ ".txt") .file none
      (some (String.intercalate " " args1))) node =
      node.withChildren (some ((node.children.getD []) ++
        [FileSystemNode.mk (nickname ++ ".txt") .file none
          (some (String.intercalate " " args1))])) := rfl
  have hfind1 : ((pushChild (FileSystemNode.mk (nickname ++ ".txt") .file none
        (some (String.intercalate " " args1))) node).children.getD []).find?
        (fun c => c.name = nickname ++ ".txt") =
      some (FileSystemNode.mk (nickname ++ ".txt") .file none
        (some (String.intercalate " " args1))) := by
    rw [pushChild]
    simp only [FileSystemNode.children_withChildren, Option.getD_some]
    rw [find?_append_none hfresh]
    exact find?_name_cons_pos [] rfl
  have hcf2 : createFile (executeComment args1 s nickname).2 s.currentDirectory
      (nickname ++ ".txt") (String.intercalate " " args2) =
      (false, (executeComment args1 s nickname).2) :=
    createFile_exists hget1 (by rw [pushChild]; simp [hdir]) hfind1
  have huf2 : updateFile (executeComment args1 s nickname).2 s.currentDirectory
      (nickname ++ ".txt") (String.intercalate " " args2) =
      (true, modifyAtPath (executeComment args1 s nickname).2 s.currentDirectory
        (fun n => n.withChildren (n.children.map
          (replaceFirstNamed (nickname ++ ".txt")
            (fun c => c.withContent (some (String.intercalate " " args2))))))) :=
    updateFile_success hget1 (by rw [pushChild]; simp [hdir]) hfind1 rfl
  have hrun2 : executeComment args2
      { s with fileSystem := (executeComment args1 s nickname).2 } nickname =
      ({ output := ["file updated (shared)"], error := none },
        modifyAtPath (executeComment args1 s nickname).2 s.currentDirectory
          (fun n => n.withChildren (n.children.map
            (replaceFirstNamed (nickname ++ ".txt")
              (fun c => c.withContent (some (String.intercalate " " args2))))))) := by
    rw [executeComment, if_neg (by simp [h2])]
    dsimp only
    rw [hcf2]
    dsimp only
    rw [if_neg (by simp), huf2]
    dsimp only
    rw [if_pos rfl]
  have hupd : (pushChild (FileSystemNode.mk (nickname ++ ".txt") .file none
        (some (String.intercalate " " args1))) node).withChildren
      (Option.map (replaceFirstNamed (nickname ++ ".txt")
          (fun c => c.withContent (some (String.intercalate " " args2))))
        (pushChild (FileSystemNode.mk (nickname ++ ".txt") .file none
          (some (String.intercalate " " args1))) node).children) =
      node.withChildren (some ((node.children.getD []) ++
        [FileSystemNode.mk (nickname ++ ".txt") .file none
          (some (String.intercalate " " args2))])) := by
    rw [pushChild]
    simp only [FileSystemNode.children_withChildren, Option.map_some']
    rw [withChildren_withChildren]
    rw [replaceFirstNamed_append_fresh hfresh (by simp)]
    rfl
  have hget2 : getNodeAtPath
      (executeComment args2
        { s with fileSystem := (executeComment args1 s nickname).2 } nickname).2
      s.currentDirectory =
      some (node.withChildren (some ((node.children.getD []) ++
        [FileSystemNode.mk (nickname ++ ".txt") .file none
          (some (String.intercalate " " args2))]))) := by
    rw [hrun2]
    dsimp only
    rw [getNodeAtPath_modifyAtPath_self (by simp) hget1]
    exact congrArg some hupd
  refine ⟨by rw [hrun1], by rw [hget1, hpush], by rw [hrun2], hget2, ?_, fun _ _ => rfl⟩
  rw [countNamed, childrenAt, hget2]
  simp only [FileSystemNode.children_withChildren, Option.getD_some]
  rw [List.countP_append]
  have hzero : (node.children.getD []).countP (fun c => c.name = nickname ++ ".txt") = 0 := by
    rw [List.countP_eq_zero]
    rw [List.find?_eq_none] at hfresh
    exact hfresh
  rw [hzero]
  simp

/-- Witness for C8 on a concrete session. -/
theorem C8_comment_create_then_update_witness :
    (executeComment ["hello", "world"] (initialSession "a").state "a").1 =
      { output := ["file created (shared)"], error := none } ∧
    (executeComment ["bye"]
        { (initialSession "a").state with
          fileSystem := (executeComment ["hello", "world"] (initialSession "a").state "a").2 }
        "a").1 =
      { output := ["file updated (shared)"], error := none } ∧
    countNamed
        (executeComment ["bye"]
          { (initialSession "a").state with
            fileSystem := (executeComment ["hello", "world"] (initialSession "a").state "a").2 }
          "a").2
        (initialSession "a").state.currentDirectory "a.txt" = 1 := by
  have h := C8_comment_create_then_update (initialSession "a").state "a"
    ["hello", "world"] ["bye"]
    (FileSystemNode.mk "a" .directory
      (some
        [ .mk "active" .directory (some []) none,
          .mk "Documents" .directory
            (some [.mk "readme.txt" .file none (some "Welcome to the terminal!")])
            none,
          .mk "Downloads" .directory (some []) none,
          .mk "Desktop" .directory (some []) none ]) none)
    (by decide) (by decide) (by rfl) rfl (by rfl)
  exact ⟨h.1, h.2.2.1, h.2.2.2.2.1⟩

/-- C3: for every nickname that is a single non-empty path segment
(containing no `/`), after any sequence of executed command lines from the
initial session, the current directory still resolves through
`getNodeAtPath` to an existing node of type directory in the session's
filesystem. -/
theorem C3_currentDirectory_always_resolves (nickname : String) (hne : nickname ≠ "")
    (hslash : '/' ∉ nickname.toList) (commands : List String) :
    ∃ n, getNodeAtPath
        (runCommands nickname (initialSession nickname) commands).state.fileSystem
        (runCommands nickname (initialSession nickname) commands).state.currentDirectory =
      some n ∧ n.type = .directory :=
  (runCommands_inv nickname commands (initialSession nickname)
    (initialSession_inv nickname hne hslash)).2.1

/-- Witness for C3 on a concrete command sequence. -/
theorem C3_currentDirectory_always_resolves_witness :
    ∃ n, getNodeAtPath
        (runCommands "alice" (initialSession "alice")
          ["mkdir proj", "cd proj", "comment hi", "ls", "cd .."]).state.fileSystem
        (runCommands "alice" (initialSession "alice")
          ["mkdir proj", "cd proj", "comment hi", "ls", "cd .."]).state.currentDirectory =
      some n ∧ n.type = .directory :=
  C3_currentDirectory_always_resolves "alice" (by decide) (by decide)
    ["mkdir proj", "cd proj", "comment hi", "ls", "cd .."]
